import Mathlib

/-!
Shallow embedding of the Session Lifecycle & Reconciliation Engine of
claude-overwatch, translated from:
  - packages/server/src/store.ts   (SessionStore)
  - the session scanner module     (SessionScanner and helpers)
  - packages/server/src/db.ts      (OverwatchDB.getLastPendingStateForSession)

Modelling conventions:
  - JS Date values are milliseconds since the epoch, modelled as Nat;
    JS subtraction of dates (which may be negative) is modelled on Int.
  - The JS Map (insertion-ordered, unique keys, set replaces in place)
    is modelled as a list; `Store.set` replaces the first entry with the
    same id and otherwise appends, matching Map.set semantics.
  - Database and broadcaster calls are side effects; each store operation
    returns, besides its result and the new store, the ordered list of
    effects it performed.  Payloads of the database calls are elided
    down to the session id; broadcasts keep their payload shape
    (a session snapshot for broadcastSessionUpdate, the bare id for
    broadcastSessionEnded) because the spec's notification contract
    distinguishes them.
  - JS `Array.prototype.sort` is stable; it is modelled by a stable
    insertion sort on the comparator key.
-/

inductive SessionStatus where
  | active
  | idle
  | stale
  | ended
deriving DecidableEq, Repr

inductive PendingState where
  | permission_prompt
  | idle_prompt
  | elicitation_dialog
deriving DecidableEq, Repr

structure Session where
  id : String
  projectPath : String
  projectName : String
  status : SessionStatus
  lastActivity : Nat
  lastTool : String
  lastToolInput : String
  startedAt : Nat
  transcriptPath : String
  pendingState : Option PendingState
  pendingMessage : String
deriving DecidableEq, Repr

-- Status thresholds in milliseconds (store.ts)
def ACTIVE_THRESHOLD : Int := 30 * 1000

def IDLE_THRESHOLD : Int := 5 * 60 * 1000

/-- JS `str.split(sep)` on character lists (kernel-reducible model of
`String.split`): `"" ↦ [""]`, `"/a/" ↦ ["", "a", ""]`. -/
def splitOnChar (sep : Char) : List Char → List (List Char)
  | [] => [[]]
  | c :: rest =>
      if c = sep then [] :: splitOnChar sep rest
      else
        match splitOnChar sep rest with
        | [] => [[c]]
        | h :: t => (c :: h) :: t

-- `projectPath.split("/").pop() || projectPath`
def projectNameOf (projectPath : String) : String :=
  match (splitOnChar (Char.ofNat 47) projectPath.data).getLast? with
  | some lastSeg => if lastSeg = [] then projectPath else ⟨lastSeg⟩
  | none => projectPath

/-- The in-memory `Map<string, Session>` of `SessionStore`, as an
insertion-ordered list of records keyed by their `id` field. -/
abbrev Store := List Session

def Store.get? (st : Store) (id : String) : Option Session :=
  st.find? (fun s => s.id = id)

/-- Model of `Map.set`: replace the first record with the same id in place,
otherwise append at the end. -/
def Store.set (st : Store) (s : Session) : Store :=
  match st with
  | [] => [s]
  | t :: rest => if t.id = s.id then s :: rest else t :: Store.set rest s

def Store.hasSession (st : Store) (id : String) : Bool :=
  (st.get? id).isSome

def Store.size (st : Store) : Nat := st.length

/-- Well-formedness: ids are unique, as for the keys of a JS Map. -/
def StoreWF (st : Store) : Prop := (st.map (fun s => s.id)).Nodup

instance StoreWF.decidable (st : Store) : Decidable (StoreWF st) :=
  inferInstanceAs
    (Decidable (List.Nodup (List.map (fun s : Session => s.id) st)))

/-- One observable side effect of a store operation, in program order. -/
inductive Effect where
  | registryWrite (id : String)
  | dbUpsertSession (id : String)
  | dbLogEvent (id : String) (eventType : String)
  | dbUpdateSessionActivity (id : String)
  | dbUpdatePendingState (id : String)
  | dbLogPermissionRequest (id : String)
  | dbResolvePermissionRequest (id : String) (resolution : String)
  | dbEndSession (id : String)
  | broadcastSessionUpdate (snapshot : Session)
  | broadcastSessionEnded (id : String)
deriving DecidableEq, Repr

def Effect.isBroadcast : Effect → Bool
  | .broadcastSessionUpdate _ => true
  | .broadcastSessionEnded _ => true
  | _ => false

/-- Durable writes of the session record itself. -/
def Effect.isSessionPersist : Effect → Bool
  | .dbUpsertSession _ => true
  | .dbUpdateSessionActivity _ => true
  | .dbUpdatePendingState _ => true
  | .dbEndSession _ => true
  | _ => false

/-- Model of `SessionStore.calculateStatus`. -/
def calculateStatus (now : Nat) (s : Session) : SessionStatus :=
  if s.status = .ended then .ended
  else
    let elapsed : Int := (now : Int) - (s.lastActivity : Int)
    if elapsed < ACTIVE_THRESHOLD then .active
    else if elapsed < IDLE_THRESHOLD then .idle
    else .stale

/-- Model of `SessionStore.toResponse`: snapshot with freshly computed status. -/
def toResponse (now : Nat) (s : Session) : Session :=
  { s with status := calculateStatus now s }

structure OpOut where
  res : Option Session
  store : Store
  fx : List Effect

/-- Model of `SessionStore.createSession`. -/
def createSession (now : Nat) (id projectPath transcriptPath : String)
    (st : Store) : OpOut :=
  let projectName := projectNameOf projectPath
  let session : Session :=
    { id := id
      projectPath := projectPath
      projectName := projectName
      status := .active
      lastActivity := now
      lastTool := ""
      lastToolInput := ""
      startedAt := now
      transcriptPath := transcriptPath
      pendingState := none
      pendingMessage := "" }
  { res := some session
    store := st.set session
    fx := [.registryWrite id, .dbUpsertSession id,
           .dbLogEvent id "session-start",
           .broadcastSessionUpdate (toResponse now session)] }

/-- Model of `SessionStore.getSession`: recomputes the status and (because the JS
code mutates the record held by the map) writes it back. -/
def getSession (now : Nat) (id : String) (st : Store) :
    Option Session × Store :=
  match st.get? id with
  | none => (none, st)
  | some s =>
      let s' := { s with status := calculateStatus now s }
      (some s', st.set s')

def touchStatus (now : Nat) (s : Session) : Session :=
  { s with status := calculateStatus now s }

def insertKeyDesc {α : Type} (key : α → Nat) (a : α) : List α → List α
  | [] => [a]
  | b :: l => if key b ≤ key a then a :: b :: l else b :: insertKeyDesc key a l

/-- Stable sort, descending by `key` (the comparator
`(a, b) => key b - key a` under JS stable sort). -/
def sortByKeyDesc {α : Type} (key : α → Nat) : List α → List α
  | [] => []
  | a :: l => insertKeyDesc key a (sortByKeyDesc key l)

/-- Model of `SessionStore.getAllSessions`: recomputes every status in place and
returns the records sorted by lastActivity descending. -/
def getAllSessions (now : Nat) (st : Store) : List Session × Store :=
  let st' := st.map (touchStatus now)
  (sortByKeyDesc (fun s => s.lastActivity) st', st')

/-- Model of `SessionStore.updateActivity`. -/
def updateActivity (now : Nat) (id toolName toolInput : String)
    (st : Store) : OpOut :=
  match st.get? id with
  | none => { res := none, store := st, fx := [] }
  | some s =>
      let fx0 :=
        if s.pendingState = some .permission_prompt then
          [Effect.dbResolvePermissionRequest id "approved"]
        else []
      let s1 := { s with lastActivity := now, lastTool := toolName,
                         lastToolInput := toolInput }
      let s2 := { s1 with status := calculateStatus now s1 }
      let s3 := { s2 with pendingState := none, pendingMessage := "" }
      { res := some s3
        store := st.set s3
        fx := fx0 ++ [.registryWrite id, .dbUpdateSessionActivity id,
                      .dbLogEvent id "tool-use",
                      .broadcastSessionUpdate (toResponse now s3)] }

/-- Model of `SessionStore.setPendingState` (also used as `clearPendingState`
when called with `none`). -/
def setPendingState (now : Nat) (id : String) (ps : Option PendingState)
    (msg : String) (st : Store) : OpOut :=
  match st.get? id with
  | none => { res := none, store := st, fx := [] }
  | some s =>
      let s' := { s with pendingState := ps, pendingMessage := msg,
                         lastActivity := now }
      let fxPerm :=
        if ps = some .permission_prompt then
          [Effect.dbLogPermissionRequest id]
        else []
      { res := some s'
        store := st.set s'
        fx := [.registryWrite id, .dbUpdatePendingState id] ++ fxPerm ++
              [.broadcastSessionUpdate (toResponse now s')] }

/-- Model of `SessionStore.endSession`. -/
def endSession (now : Nat) (id : String) (st : Store) : OpOut :=
  match st.get? id with
  | none => { res := none, store := st, fx := [] }
  | some s =>
      let fx0 :=
        if s.pendingState = some .permission_prompt then
          [Effect.dbResolvePermissionRequest id "timeout"]
        else []
      let s' := { s with pendingState := none, pendingMessage := "",
                         status := .ended, lastActivity := now }
      { res := some s'
        store := st.set s'
        fx := fx0 ++ [.registryWrite id, .dbEndSession id,
                      .dbLogEvent id "session-end",
                      .broadcastSessionEnded id] }

structure ImportOut where
  inserted : Bool
  store : Store
  fx : List Effect

/-- Model of `SessionStore.importSession` (the spec's `importIfAbsent`). -/
def importSession (session : Session) (st : Store) : ImportOut :=
  if st.hasSession session.id then
    { inserted := false, store := st, fx := [] }
  else
    { inserted := true
      store := st.set session
      fx := [.registryWrite session.id, .dbUpsertSession session.id] }

/-- Lookup in an insertion-ordered JS-Map model (`Map.get`). -/
def lookupG {β : Type} (k : String) : List (String × β) → Option β
  | [] => none
  | (k', v) :: rest => if k' = k then some v else lookupG k rest

/-- Model of `counts.set(cwd, (counts.get(cwd) || 0) + 1)`. -/
def incrCount (m : List (String × Nat)) (k : String) : List (String × Nat) :=
  match m with
  | [] => [(k, 1)]
  | (k', n) :: rest =>
      if k' = k then (k', n + 1) :: rest else (k', n) :: incrCount rest k

structure RunningClaudeProcess where
  pid : Nat
  cwd : String
  startedAt : Nat
deriving DecidableEq

/-- Model of `countProcessesPerCwd` (scanner module). -/
def countProcessesPerCwd (processes : List RunningClaudeProcess) :
    List (String × Nat) :=
  processes.foldl (fun counts p => incrCount counts p.cwd) []

/-- Model of `SessionScanner.getProcessCount`: exact-match lookup only. -/
def getProcessCount (counts : List (String × Nat)) (projectPath : String) :
    Nat :=
  (lookupG projectPath counts).getD 0

/-- Model of `existing = m.get(k) || []; existing.push(x); m.set(k, existing)`. -/
def groupUpd {α : Type} (key : α → String) (m : List (String × List α))
    (x : α) : List (String × List α) :=
  match m with
  | [] => [(key x, [x])]
  | (k, l) :: rest =>
      if k = key x then (k, l ++ [x]) :: rest
      else (k, l) :: groupUpd key rest x

def groupByKey {α : Type} (key : α → String) (l : List α) :
    List (String × List α) :=
  l.foldl (groupUpd key) []

-- ### The reconciler (SessionScanner) and its database helper

/-- Fields of a `sessions-index.json` entry that the scanner reads
(`created` and `modified` as parsed timestamps). -/
structure SessionIndexEntry where
  sessionId : String
  fullPath : String
  created : Nat
  modified : Nat
  projectPath : String
deriving DecidableEq

structure SessionIndex where
  entries : List SessionIndexEntry
deriving DecidableEq

/-- Outcome of `JSON.parse(lastEvent.payload)`, reduced to the two fields
the recovery logic inspects. -/
inductive RawPayload where
  | parseError
  | fields (notification_type : Option String) (message : Option String)
deriving DecidableEq

structure RawEvent where
  session_id : String
  event_type : String
  payload : RawPayload
  received_at : Nat
deriving DecidableEq

/-- Model of `ORDER BY received_at DESC LIMIT 1` over the rows of one session:
the first row attaining the maximal `received_at`. -/
def lastEventFor (events : List RawEvent) (sessionId : String) :
    Option RawEvent :=
  (events.filter (fun e => e.session_id = sessionId)).foldl
    (fun acc e =>
      match acc with
      | none => some e
      | some a => if a.received_at < e.received_at then some e else acc)
    none

/-- Model of `OverwatchDB.getLastPendingStateForSession` (db.ts). -/
def getLastPendingStateForSession (events : List RawEvent)
    (sessionId : String) : Option (PendingState × String) :=
  match lastEventFor events sessionId with
  | none => none
  | some lastEvent =>
      if lastEvent.event_type ≠ "notification" then none
      else
        match lastEvent.payload with
        | .parseError => none
        | .fields notificationType message =>
            match notificationType with
            | none => none
            | some t =>
                if t = "permission_prompt" then
                  some (.permission_prompt, message.getD "")
                else if t = "idle_prompt" then
                  some (.idle_prompt, message.getD "")
                else if t = "elicitation_dialog" then
                  some (.elicitation_dialog, message.getD "")
                else none

-- `ACTIVE_FILE_THRESHOLD` (scanner module)
def ACTIVE_FILE_THRESHOLD : Int := 5 * 60 * 1000

/-- Environment of one reconciliation pass: the process snapshot, the
transcript indexes of the project directories, and the file-system and
database oracles the scanner consults. -/
structure ScanEnv where
  now : Nat
  processes : List RunningClaudeProcess
  indexes : List (Option SessionIndex)
  fileMtime : String → Option Nat
  lastToolFromJsonl : String → Option (String × String)
  rawEvents : List RawEvent

/-- Model of `SessionScanner.isRecentlyModified` (`none` models a stat failure). -/
def isRecentlyModified (env : ScanEnv) (filePath : String) : Bool :=
  match env.fileMtime filePath with
  | some m => ((env.now : Int) - (m : Int)) < ACTIVE_FILE_THRESHOLD
  | none => false

/-- The session record `scanProjectDir` reconstructs for one index
entry (scanner module, import branch). -/
def buildImportedSession (env : ScanEnv) (entry : SessionIndexEntry) :
    Session :=
  let isRecent := isRecentlyModified env entry.fullPath
  let lastTool := env.lastToolFromJsonl entry.fullPath
  let lastPending := getLastPendingStateForSession env.rawEvents entry.sessionId
  { id := entry.sessionId
    projectPath := entry.projectPath
    projectName := projectNameOf entry.projectPath
    status := if isRecent then .active else .stale
    lastActivity := entry.modified
    lastTool := (lastTool.map Prod.fst).getD ""
    lastToolInput := (lastTool.map Prod.snd).getD ""
    startedAt := entry.created
    transcriptPath := entry.fullPath
    pendingState := lastPending.map Prod.fst
    pendingMessage := (lastPending.map Prod.snd).getD "" }

/-- Model of `SessionScanner.scanProjectDir`. -/
def scanProjectDir (env : ScanEnv) (counts : List (String × Nat))
    (st : Store) (index : Option SessionIndex) : List Session :=
  match index with
  | none => []
  | some idx =>
      let entriesByPath := groupByKey (fun e => e.projectPath) idx.entries
      entriesByPath.foldl
        (fun sessions g =>
          let processCount := getProcessCount counts g.1
          if processCount = 0 then sessions
          else
            let sorted := sortByKeyDesc (fun e => e.modified) g.2
            let toImport := sorted.take processCount
            sessions ++ toImport.filterMap (fun entry =>
              if st.hasSession entry.sessionId then none
              else some (buildImportedSession env entry)))
        []

/-- The inner `store.endSession` loops of `cleanupDeadSessions`,
threading the ended counter and the store. -/
def endAll (now : Nat) (ss : List Session) (q : Nat × Store) : Nat × Store :=
  ss.foldl (fun q s => (q.1 + 1, (endSession now s.id q.2).store)) q

/-- Body of the per-projectPath loop of `cleanupDeadSessions`. -/
def cleanupStep (now : Nat) (counts : List (String × Nat))
    (q : Nat × Store) (g : String × List Session) : Nat × Store :=
  let processCount := getProcessCount counts g.1
  let sorted := sortByKeyDesc (fun s => s.lastActivity) g.2
  let q1 := endAll now (sorted.drop processCount) q
  if processCount = 0 then endAll now sorted q1 else q1

/-- Model of `SessionScanner.cleanupDeadSessions`. -/
def cleanupDeadSessions (now : Nat) (counts : List (String × Nat))
    (st : Store) : Nat × Store :=
  let allP := getAllSessions now st
  let live := allP.1.filter (fun s => !decide (s.status = SessionStatus.ended))
  let groups := groupByKey (fun s => s.projectPath) live
  groups.foldl (cleanupStep now counts) (0, allP.2)

/-- Model of `SessionScanner.scan`: refresh the process counts, prune, scan all
project directories, import the discoveries. -/
def scan (env : ScanEnv) (st : Store) : List Session × Store :=
  let counts := countProcessesPerCwd env.processes
  let q := cleanupDeadSessions env.now counts st
  let discovered := env.indexes.foldl
    (fun acc index => acc ++ scanProjectDir env counts q.2 index) []
  let finalStore := discovered.foldl
    (fun s session => (importSession session s).store) q.2
  (discovered, finalStore)

/-- The non-ended sessions tracked for `path`, most recently active
first, exactly as the pruning pass of `cleanupDeadSessions` sees them. -/
def liveSessionsAt (now : Nat) (st : Store) (path : String) : List Session :=
  sortByKeyDesc (fun s => s.lastActivity)
    (((getAllSessions now st).1.filter
        (fun s => !decide (s.status = SessionStatus.ended))).filter
      (fun s => decide (s.projectPath = path)))

/-- Modelled from the spec: the read-time status derivation stated in
§4.1 as a function of the elapsed time alone, used as the refinement
comparator for `calculateStatus`. -/
def specStatusOfElapsed (elapsed : Int) : SessionStatus :=
  if elapsed < 30000 then .active
  else if elapsed < 300000 then .idle
  else .stale

-- ### Auxiliary definitions for the development and its witnesses

def optAppend {β : Type} (o : Option (List β)) (l : List β) :
    Option (List β) :=
  match l with
  | [] => o
  | a :: tl => some (o.getD [] ++ a :: tl)

/-- Contribution of one projectPath group to the scan result. -/
def scanContrib (env : ScanEnv) (counts : List (String × Nat))
    (st : Store) (g : String × List SessionIndexEntry) : List Session :=
  if getProcessCount counts g.1 = 0 then []
  else
    ((sortByKeyDesc (fun e => e.modified) g.2).take
      (getProcessCount counts g.1)).filterMap (fun entry =>
        if st.hasSession entry.sessionId then none
        else some (buildImportedSession env entry))

def pendingOf (s : Session) : Option PendingState × String :=
  (s.pendingState, s.pendingMessage)

/-- One read-only query against the store, at an arbitrary instant. -/
inductive ReadOp where
  | getOne (now : Nat) (id : String)
  | getAll (now : Nat)

def applyRead (st : Store) : ReadOp → Store
  | .getOne now id => (getSession now id st).2
  | .getAll now => (getAllSessions now st).2

def applyReads (st : Store) (ops : List ReadOp) : Store :=
  ops.foldl applyRead st

/-- Exactly one change notification, emitted last, after the registry
write and the durable write of the session record. -/
def NotifiesOnceAfterPersist (id : String) (fx : List Effect) : Prop :=
  fx.countP Effect.isBroadcast = 1 ∧
  ∃ l1 l2 d e, fx = l1 ++ Effect.registryWrite id :: d :: l2 ++ [e] ∧
    d.isSessionPersist = true ∧ e.isBroadcast = true

def endedStoreEx : Store :=
  (endSession 1 "a" (createSession 0 "a" "/p" "t" []).store).store

def endedSessionEx : Session :=
  { id := "a", projectPath := "/p", projectName := "p",
    status := .ended, lastActivity := 1, lastTool := "",
    lastToolInput := "", startedAt := 0, transcriptPath := "t",
    pendingState := none, pendingMessage := "" }

def createdSessionEx : Session :=
  { id := "a", projectPath := "/p", projectName := "p",
    status := .active, lastActivity := 0, lastTool := "",
    lastToolInput := "", startedAt := 0, transcriptPath := "t",
    pendingState := none, pendingMessage := "" }

def c10ProcessesEx : List RunningClaudeProcess :=
  [{ pid := 1, cwd := "/a", startedAt := 0 },
   { pid := 2, cwd := "/a/b/c", startedAt := 0 }]

def c10SessionEx : Session :=
  { id := "s1", projectPath := "/a/b", projectName := "b",
    status := .active, lastActivity := 0, lastTool := "",
    lastToolInput := "", startedAt := 0, transcriptPath := "t",
    pendingState := none, pendingMessage := "" }

def c6StoreEx : Store :=
  (createSession 20 "b" "/p" "t"
    (createSession 10 "a" "/p" "t" []).store).store

def c6aEx : Session :=
  { id := "a", projectPath := "/p", projectName := "p",
    status := .active, lastActivity := 10, lastTool := "",
    lastToolInput := "", startedAt := 10, transcriptPath := "t",
    pendingState := none, pendingMessage := "" }

def c6bEx : Session :=
  { id := "b", projectPath := "/p", projectName := "p",
    status := .active, lastActivity := 20, lastTool := "",
    lastToolInput := "", startedAt := 20, transcriptPath := "t",
    pendingState := none, pendingMessage := "" }

def c2EnvEx : ScanEnv :=
  { now := 100, processes := [], indexes := [],
    fileMtime := fun _ => none, lastToolFromJsonl := fun _ => none,
    rawEvents := [] }

def c2EndedEx : Session :=
  { id := "a", projectPath := "/p", projectName := "p",
    status := .ended, lastActivity := 100, lastTool := "",
    lastToolInput := "", startedAt := 10, transcriptPath := "t",
    pendingState := none, pendingMessage := "" }

def c7EnvEx : ScanEnv :=
  { now := 1000, processes := [], indexes := [],
    fileMtime := fun _ => none, lastToolFromJsonl := fun _ => none,
    rawEvents := [] }

def c7Entry1Ex : SessionIndexEntry :=
  { sessionId := "t1", fullPath := "f1", created := 1, modified := 1,
    projectPath := "/p" }

def c7Entry2Ex : SessionIndexEntry :=
  { sessionId := "t2", fullPath := "f2", created := 2, modified := 2,
    projectPath := "/p" }

def c7Entry3Ex : SessionIndexEntry :=
  { sessionId := "t3", fullPath := "f3", created := 3, modified := 3,
    projectPath := "/p" }

def c7IdxEx : SessionIndex :=
  { entries := [c7Entry1Ex, c7Entry2Ex, c7Entry3Ex] }

def c8EnvEx : ScanEnv :=
  { now := 1000, processes := [], indexes := [],
    fileMtime := fun _ => none, lastToolFromJsonl := fun _ => none,
    rawEvents :=
      [{ session_id := "x", event_type := "tool-use",
         payload := RawPayload.parseError, received_at := 5 },
       { session_id := "x", event_type := "notification",
         payload := RawPayload.fields (some "permission_prompt")
           (some "may I run Bash?"), received_at := 9 }] }

def c8EntryEx : SessionIndexEntry :=
  { sessionId := "x", fullPath := "fx", created := 1, modified := 2,
    projectPath := "/p" }

def c8IdxEx : SessionIndex := { entries := [c8EntryEx] }

-- ### Store lemmas

theorem get?_nil (j : String) : Store.get? [] j = none := rfl

theorem get?_cons (t : Session) (rest : List Session) (j : String) :
    Store.get? (t :: rest) j = if t.id = j then some t else Store.get? rest j := by
  by_cases h : t.id = j <;> simp [Store.get?, List.find?, h]

theorem set_nil (s : Session) : Store.set [] s = [s] := rfl

theorem set_cons (t : Session) (rest : List Session) (s : Session) :
    Store.set (t :: rest) s =
      if t.id = s.id then s :: rest else t :: Store.set rest s := rfl

theorem get?_eq_id {st : Store} {id : String} {s : Session}
    (h : st.get? id = some s) : s.id = id := by
  unfold Store.get? at h
  have h2 := List.find?_some h
  exact of_decide_eq_true h2

theorem mem_of_get? {st : Store} {id : String} {s : Session}
    (h : st.get? id = some s) : s ∈ st :=
  List.mem_of_find?_eq_some h

theorem get?_set_self (st : Store) (s : Session) :
    (st.set s).get? s.id = some s := by
  induction st with
  | nil => simp [set_nil, get?_cons, get?_nil]
  | cons t rest ih =>
      rw [set_cons]
      by_cases h : t.id = s.id
      · simp [h, get?_cons]
      · simp [h, get?_cons, ih]

theorem get?_set_other (st : Store) (s : Session) {j : String}
    (h : j ≠ s.id) : (st.set s).get? j = st.get? j := by
  induction st with
  | nil =>
      have : ¬ s.id = j := fun hh => h hh.symm
      simp [set_nil, get?_cons, get?_nil, this]
  | cons t rest ih =>
      rw [set_cons]
      by_cases ht : t.id = s.id
      · have : ¬ s.id = j := fun hh => h hh.symm
        have ht' : ¬ t.id = j := by rw [ht]; exact this
        simp [ht, get?_cons, this, ht']
      · by_cases htj : t.id = j
        · simp only [set_cons, if_neg ht, get?_cons, if_pos htj]
        · simp only [set_cons, if_neg ht, get?_cons, if_neg htj]
          exact ih

theorem map_id_set_of_isSome (st : Store) (s : Session)
    (h : (st.get? s.id).isSome) :
    (st.set s).map (fun x => x.id) = st.map (fun x => x.id) := by
  induction st with
  | nil => simp [get?_nil] at h
  | cons t rest ih =>
      rw [set_cons]
      by_cases ht : t.id = s.id
      · simp [ht]
      · rw [get?_cons] at h
        simp only [ht, if_false] at h ⊢
        simp [ih h]

theorem map_id_set_of_none (st : Store) (s : Session)
    (h : st.get? s.id = none) :
    (st.set s).map (fun x => x.id) = st.map (fun x => x.id) ++ [s.id] := by
  induction st with
  | nil => simp [set_nil]
  | cons t rest ih =>
      rw [get?_cons] at h
      by_cases ht : t.id = s.id
      · simp [ht] at h
      · simp only [ht, if_false] at h
        rw [set_cons]
        simp [ht, ih h]

theorem length_set (st : Store) (s : Session) :
    (st.set s).length =
      if (st.get? s.id).isSome then st.length else st.length + 1 := by
  induction st with
  | nil => simp [set_nil, get?_nil]
  | cons t rest ih =>
      by_cases ht : t.id = s.id
      · simp [set_cons, ht, get?_cons]
      · rw [set_cons, if_neg ht, get?_cons, if_neg ht]
        simp only [List.length_cons, ih]
        split <;> rfl

theorem get?_of_mem {st : Store} (hWF : StoreWF st) {s : Session}
    (hs : s ∈ st) : st.get? s.id = some s := by
  induction st with
  | nil => cases hs
  | cons t rest ih =>
      rcases List.mem_cons.mp hs with h | h
      · subst h; simp [get?_cons]
      · have hWF2 : ((t :: rest).map (fun x => x.id)).Nodup := hWF
        rw [List.map_cons, List.nodup_cons] at hWF2
        have hne : t.id ≠ s.id := by
          intro hEq
          have hmem : s.id ∈ rest.map (fun x => x.id) :=
            List.mem_map_of_mem _ h
          exact hWF2.1 (by rw [hEq]; exact hmem)
        have hWF' : StoreWF rest := hWF2.2
        simp [get?_cons, hne, ih hWF' h]

-- ### endSession / endAll lemmas

theorem endSession_store_of_none {st : Store} {i : String} (now : Nat)
    (h : st.get? i = none) : (endSession now i st).store = st := by
  unfold endSession
  rw [h]

theorem endSession_store_of_some {st : Store} {i : String} {s : Session}
    (now : Nat) (h : st.get? i = some s) :
    (endSession now i st).store =
      st.set { s with pendingState := none, pendingMessage := "",
                      status := .ended, lastActivity := now } := by
  unfold endSession
  rw [h]

theorem endSession_get?_self {st : Store} {i : String} {s : Session}
    (now : Nat) (h : st.get? i = some s) :
    (endSession now i st).store.get? i =
      some { s with pendingState := none, pendingMessage := "",
                    status := .ended, lastActivity := now } := by
  rw [endSession_store_of_some now h]
  have hid : s.id = i := get?_eq_id h
  have := get?_set_self st
    { s with pendingState := none, pendingMessage := "",
             status := .ended, lastActivity := now }
  simpa [hid] using this

theorem endSession_get?_other {st : Store} {i j : String} (now : Nat)
    (hne : j ≠ i) : (endSession now i st).store.get? j = st.get? j := by
  cases h : st.get? i with
  | none => rw [endSession_store_of_none now h]
  | some s =>
      rw [endSession_store_of_some now h]
      have hid : s.id = i := get?_eq_id h
      exact get?_set_other st _ (by simpa [hid] using hne)

theorem endSession_isSome {st : Store} {i j : String} (now : Nat)
    (h : (st.get? j).isSome) :
    ((endSession now i st).store.get? j).isSome := by
  by_cases hji : j = i
  · subst hji
    rcases Option.isSome_iff_exists.mp h with ⟨s, hs⟩
    rw [endSession_get?_self now hs]
    rfl
  · rw [endSession_get?_other now hji]
    exact h

theorem endSession_isSome_rev {st : Store} {i j : String} (now : Nat)
    (h : ((endSession now i st).store.get? j).isSome) :
    (st.get? j).isSome := by
  by_cases hji : j = i
  · subst hji
    cases hs : st.get? j with
    | none => rw [endSession_store_of_none now hs] at h; rw [hs] at h; exact h
    | some s => rfl
  · rw [endSession_get?_other now hji] at h
    exact h

theorem endSession_keeps_ended {st : Store} {i j : String} {r : Session}
    (now : Nat) (h : st.get? j = some r) (hr : r.status = .ended) :
    ∃ r', (endSession now i st).store.get? j = some r' ∧
      r'.status = .ended := by
  by_cases hji : j = i
  · subst hji
    exact ⟨_, endSession_get?_self now h, rfl⟩
  · exact ⟨r, by rw [endSession_get?_other now hji]; exact h, hr⟩

theorem endSession_WF {st : Store} {i : String} (now : Nat)
    (hWF : StoreWF st) : StoreWF (endSession now i st).store := by
  cases h : st.get? i with
  | none => rw [endSession_store_of_none now h]; exact hWF
  | some s =>
      rw [endSession_store_of_some now h]
      have hid : s.id = i := get?_eq_id h
      have hsome : (st.get?
          ({ s with pendingState := none, pendingMessage := "",
                    status := .ended, lastActivity := now } : Session).id).isSome := by
        simp only [hid]
        rw [h]; rfl
      unfold StoreWF
      rw [map_id_set_of_isSome st _ hsome]
      exact hWF

theorem endAll_cons (now : Nat) (s : Session) (tl : List Session)
    (q : Nat × Store) :
    endAll now (s :: tl) q =
      endAll now tl (q.1 + 1, (endSession now s.id q.2).store) := rfl

theorem endAll_store_untouched (now : Nat) {ss : List Session}
    {j : String} (q : Nat × Store) (h : ∀ s ∈ ss, s.id ≠ j) :
    (endAll now ss q).2.get? j = q.2.get? j := by
  induction ss generalizing q with
  | nil => rfl
  | cons s tl ih =>
      rw [endAll_cons]
      rw [ih _ (fun x hx => h x (List.mem_cons_of_mem s hx))]
      exact endSession_get?_other now
        (fun hji => h s (List.mem_cons_self s tl) hji.symm)

theorem endAll_keeps_ended (now : Nat) {ss : List Session} {j : String}
    {r : Session} (q : Nat × Store) (h : q.2.get? j = some r)
    (hr : r.status = .ended) :
    ∃ r', (endAll now ss q).2.get? j = some r' ∧ r'.status = .ended := by
  induction ss generalizing q r with
  | nil => exact ⟨r, h, hr⟩
  | cons s tl ih =>
      rw [endAll_cons]
      rcases endSession_keeps_ended (i := s.id) now h hr with ⟨r1, h1, hr1⟩
      exact ih _ h1 hr1

theorem endAll_isSome (now : Nat) {ss : List Session} {j : String}
    (q : Nat × Store) (h : (q.2.get? j).isSome) :
    ((endAll now ss q).2.get? j).isSome := by
  induction ss generalizing q with
  | nil => exact h
  | cons s tl ih =>
      rw [endAll_cons]
      exact ih _ (endSession_isSome now h)

theorem endAll_isSome_rev (now : Nat) {ss : List Session} {j : String}
    (q : Nat × Store) (h : ((endAll now ss q).2.get? j).isSome) :
    (q.2.get? j).isSome := by
  induction ss generalizing q with
  | nil => exact h
  | cons s tl ih =>
      rw [endAll_cons] at h
      exact endSession_isSome_rev now (ih _ h)

theorem endAll_ends (now : Nat) {ss : List Session} {s : Session}
    (q : Nat × Store) (hs : s ∈ ss) (hpres : (q.2.get? s.id).isSome) :
    ∃ r, (endAll now ss q).2.get? s.id = some r ∧ r.status = .ended := by
  induction ss generalizing q with
  | nil => cases hs
  | cons a tl ih =>
      rw [endAll_cons]
      rcases List.mem_cons.mp hs with h | h
      · subst h
        rcases Option.isSome_iff_exists.mp hpres with ⟨t, ht⟩
        have hEnd := endSession_get?_self now ht
        exact endAll_keeps_ended now _ hEnd rfl
      · exact ih _ h (endSession_isSome now hpres)

theorem endAll_WF (now : Nat) {ss : List Session} (q : Nat × Store)
    (hWF : StoreWF q.2) : StoreWF (endAll now ss q).2 := by
  induction ss generalizing q with
  | nil => exact hWF
  | cons s tl ih =>
      rw [endAll_cons]
      exact ih _ (endSession_WF now hWF)

-- ### Sorting lemmas

theorem insertKeyDesc_perm {α : Type} (key : α → Nat) (a : α)
    (l : List α) : List.Perm (insertKeyDesc key a l) (a :: l) := by
  induction l with
  | nil => rfl
  | cons b tl ih =>
      unfold insertKeyDesc
      by_cases h : key b ≤ key a
      · simp [h]
      · simp only [h, if_false]
        exact (ih.cons b).trans (List.Perm.swap a b tl)

theorem sortByKeyDesc_perm {α : Type} (key : α → Nat) (l : List α) :
    List.Perm (sortByKeyDesc key l) l := by
  induction l with
  | nil => rfl
  | cons a tl ih =>
      unfold sortByKeyDesc
      exact (insertKeyDesc_perm key a _).trans (ih.cons a)

theorem mem_sortByKeyDesc {α : Type} {key : α → Nat} {l : List α} {x : α} :
    x ∈ sortByKeyDesc key l ↔ x ∈ l :=
  (sortByKeyDesc_perm key l).mem_iff

-- ### Grouping lemmas

theorem lookupG_nil {β : Type} (k : String) :
    lookupG (β := β) k [] = none := rfl

theorem lookupG_cons {β : Type} (k k' : String) (v : β)
    (rest : List (String × β)) :
    lookupG k ((k', v) :: rest) =
      if k' = k then some v else lookupG k rest := rfl

theorem groupUpd_nil {α : Type} (key : α → String) (x : α) :
    groupUpd key [] x = [(key x, [x])] := rfl

theorem groupUpd_cons {α : Type} (key : α → String) (k : String)
    (l : List α) (rest : List (String × List α)) (x : α) :
    groupUpd key ((k, l) :: rest) x =
      if k = key x then (k, l ++ [x]) :: rest
      else (k, l) :: groupUpd key rest x := rfl

theorem optAppend_some {β : Type} (b l : List β) :
    optAppend (some b) l = some (b ++ l) := by
  cases l <;> simp [optAppend]

theorem lookupG_groupUpd {α : Type} (key : α → String)
    (m : List (String × List α)) (x : α) (k : String) :
    lookupG k (groupUpd key m x) =
      if key x = k then some ((lookupG k m).getD [] ++ [x])
      else lookupG k m := by
  induction m with
  | nil =>
      rw [groupUpd_nil, lookupG_cons, lookupG_nil]
      by_cases h : key x = k <;> simp [h]
  | cons p rest ih =>
      obtain ⟨k', l⟩ := p
      rw [groupUpd_cons]
      by_cases hk : k' = key x
      · rw [if_pos hk, lookupG_cons, lookupG_cons]
        by_cases hkk : k' = k
        · have h1 : key x = k := hk ▸ hkk
          rw [if_pos hkk, if_pos hkk, if_pos h1]
          rfl
        · have h1 : ¬ key x = k := fun hh => hkk (hk.trans hh)
          rw [if_neg hkk, if_neg hkk, if_neg h1]
      · rw [if_neg hk, lookupG_cons]
        by_cases hkk : k' = k
        · have h1 : ¬ key x = k := fun hh => hk (hkk.trans hh.symm)
          rw [if_pos hkk, lookupG_cons, if_pos hkk, if_neg h1]
        · rw [if_neg hkk, ih, lookupG_cons, if_neg hkk]

theorem lookupG_foldl_groupUpd {α : Type} (key : α → String)
    (l : List α) (m : List (String × List α)) (k : String) :
    lookupG k (l.foldl (groupUpd key) m) =
      optAppend (lookupG k m) (l.filter (fun x => decide (key x = k))) := by
  induction l generalizing m with
  | nil => rfl
  | cons x tl ih =>
      rw [List.foldl_cons, ih]
      by_cases h : key x = k
      · rw [List.filter_cons_of_pos (by simpa using h)]
        rw [lookupG_groupUpd, if_pos h]
        rw [optAppend_some]
        cases hf : tl.filter (fun y => decide (key y = k)) <;>
          simp [optAppend]
      · rw [List.filter_cons_of_neg (by simpa using h)]
        rw [lookupG_groupUpd, if_neg h]

theorem lookupG_groupByKey_of_nil {α : Type} {key : α → String}
    {l : List α} {k : String}
    (hf : l.filter (fun x => decide (key x = k)) = []) :
    lookupG k (groupByKey key l) = none := by
  unfold groupByKey
  rw [lookupG_foldl_groupUpd, hf]
  rfl

theorem lookupG_groupByKey_of_ne {α : Type} {key : α → String}
    {l : List α} {k : String}
    (hf : l.filter (fun x => decide (key x = k)) ≠ []) :
    lookupG k (groupByKey key l) =
      some (l.filter (fun x => decide (key x = k))) := by
  unfold groupByKey
  rw [lookupG_foldl_groupUpd]
  cases hc : l.filter (fun x => decide (key x = k)) with
  | nil => exact absurd hc hf
  | cons a tl => simp [optAppend, lookupG_nil]

theorem mem_keys_groupUpd {α : Type} (key : α → String)
    (m : List (String × List α)) (x : α) (k : String) :
    k ∈ (groupUpd key m x).map Prod.fst ↔
      k ∈ m.map Prod.fst ∨ k = key x := by
  induction m with
  | nil => rw [groupUpd_nil]; simp [eq_comm]
  | cons p rest ih =>
      obtain ⟨k', l⟩ := p
      rw [groupUpd_cons]
      by_cases hk : k' = key x
      · rw [if_pos hk]
        subst hk
        simp only [List.map_cons, List.mem_cons]
        tauto
      · rw [if_neg hk]
        simp only [List.map_cons, List.mem_cons, ih]
        tauto

theorem nodup_keys_groupUpd {α : Type} (key : α → String)
    {m : List (String × List α)} (x : α)
    (h : (m.map Prod.fst).Nodup) :
    ((groupUpd key m x).map Prod.fst).Nodup := by
  induction m with
  | nil => rw [groupUpd_nil]; simp
  | cons p rest ih =>
      obtain ⟨k', l⟩ := p
      rw [List.map_cons, List.nodup_cons] at h
      rw [groupUpd_cons]
      by_cases hk : k' = key x
      · rw [if_pos hk]
        rw [List.map_cons, List.nodup_cons]
        exact h
      · rw [if_neg hk]
        rw [List.map_cons, List.nodup_cons]
        refine ⟨?_, ih h.2⟩
        intro hmem
        rcases (mem_keys_groupUpd key rest x k').mp hmem with h1 | h1
        · exact h.1 h1
        · exact hk h1

theorem nodup_keys_foldl_groupUpd {α : Type} (key : α → String)
    (l : List α) {m : List (String × List α)}
    (h : (m.map Prod.fst).Nodup) :
    ((l.foldl (groupUpd key) m).map Prod.fst).Nodup := by
  induction l generalizing m with
  | nil => exact h
  | cons x tl ih => exact ih (nodup_keys_groupUpd key x h)

theorem nodup_keys_groupByKey {α : Type} (key : α → String) (l : List α) :
    ((groupByKey key l).map Prod.fst).Nodup :=
  nodup_keys_foldl_groupUpd key l List.nodup_nil

theorem lookupG_mem {β : Type} {m : List (String × β)} {k : String}
    {v : β} (h : lookupG k m = some v) : (k, v) ∈ m := by
  induction m with
  | nil => cases h
  | cons p rest ih =>
      obtain ⟨k', v'⟩ := p
      rw [lookupG_cons] at h
      by_cases hk : k' = k
      · rw [if_pos hk] at h
        cases h
        subst hk
        exact List.mem_cons_self _ _
      · rw [if_neg hk] at h
        exact List.mem_cons_of_mem _ (ih h)

theorem mem_lookupG {β : Type} {m : List (String × β)} {k : String}
    {v : β} (hN : (m.map Prod.fst).Nodup) (h : (k, v) ∈ m) :
    lookupG k m = some v := by
  induction m with
  | nil => cases h
  | cons p rest ih =>
      obtain ⟨k', v'⟩ := p
      rw [List.map_cons, List.nodup_cons] at hN
      rcases List.mem_cons.mp h with h1 | h1
      · cases h1
        rw [lookupG_cons, if_pos rfl]
      · have hk : k' ≠ k := fun hEq =>
          hN.1 (by
            rw [hEq]
            exact List.mem_map.mpr ⟨(k, v), h1, rfl⟩)
        rw [lookupG_cons, if_neg hk]
        exact ih hN.2 h1

theorem mem_groupByKey {α : Type} {key : α → String} {l : List α}
    {k : String} {g : List α} (h : (k, g) ∈ groupByKey key l) :
    g = l.filter (fun x => decide (key x = k)) ∧ g ≠ [] := by
  have hl := mem_lookupG (nodup_keys_groupByKey key l) h
  by_cases hf : l.filter (fun x => decide (key x = k)) = []
  · rw [lookupG_groupByKey_of_nil hf] at hl
    cases hl
  · rw [lookupG_groupByKey_of_ne hf] at hl
    cases hl
    exact ⟨rfl, hf⟩

theorem groupByKey_coverage {α : Type} {key : α → String} {l : List α}
    {x : α} (h : x ∈ l) :
    (key x, l.filter (fun y => decide (key y = key x))) ∈
      groupByKey key l := by
  apply lookupG_mem
  have hne : l.filter (fun y => decide (key y = key x)) ≠ [] := by
    intro hEq
    have hx : x ∈ l.filter (fun y => decide (key y = key x)) :=
      List.mem_filter.mpr ⟨h, by simp⟩
    rw [hEq] at hx
    cases hx
  exact lookupG_groupByKey_of_ne hne

-- ### Process-count lemmas

theorem incrCount_nil (k : String) : incrCount [] k = [(k, 1)] := rfl

theorem incrCount_cons (k0 k : String) (n : Nat)
    (rest : List (String × Nat)) :
    incrCount ((k0, n) :: rest) k =
      if k0 = k then (k0, n + 1) :: rest
      else (k0, n) :: incrCount rest k := rfl

theorem lookupG_incrCount (m : List (String × Nat)) (k k' : String) :
    lookupG k' (incrCount m k) =
      if k = k' then some ((lookupG k' m).getD 0 + 1)
      else lookupG k' m := by
  induction m with
  | nil =>
      rw [incrCount_nil, lookupG_cons, lookupG_nil]
      by_cases h : k = k' <;> simp [h]
  | cons p rest ih =>
      obtain ⟨k0, n⟩ := p
      rw [incrCount_cons]
      by_cases hk : k0 = k
      · rw [if_pos hk, lookupG_cons, lookupG_cons]
        by_cases hkk : k0 = k'
        · have h1 : k = k' := hk ▸ hkk
          rw [if_pos hkk, if_pos hkk, if_pos h1]
          rfl
        · have h1 : ¬ k = k' := fun hh => hkk (hk.trans hh)
          rw [if_neg hkk, if_neg hkk, if_neg h1]
      · rw [if_neg hk, lookupG_cons]
        by_cases hkk : k0 = k'
        · have h1 : ¬ k = k' := fun hh => hk (hkk.trans hh.symm)
          rw [if_pos hkk, lookupG_cons, if_pos hkk, if_neg h1]
        · rw [if_neg hkk, ih, lookupG_cons, if_neg hkk]

theorem countProcesses_foldl (ps : List RunningClaudeProcess)
    (m : List (String × Nat)) (k : String) :
    (lookupG k (ps.foldl (fun m p => incrCount m p.cwd) m)).getD 0 =
      (lookupG k m).getD 0 +
        (ps.filter (fun p => decide (p.cwd = k))).length := by
  induction ps generalizing m with
  | nil => simp
  | cons p tl ih =>
      rw [List.foldl_cons, ih]
      by_cases h : p.cwd = k
      · rw [List.filter_cons_of_pos (by simpa using h)]
        rw [lookupG_incrCount, if_pos h]
        simp [Nat.add_comm, Nat.add_assoc, Nat.add_left_comm]
      · rw [List.filter_cons_of_neg (by simpa using h)]
        rw [lookupG_incrCount, if_neg h]

/-- The count `getProcessCount` over a fresh snapshot counts exactly the processes
whose cwd is string-equal to the path. -/
theorem getProcessCount_countProcessesPerCwd
    (ps : List RunningClaudeProcess) (k : String) :
    getProcessCount (countProcessesPerCwd ps) k =
      (ps.filter (fun p => decide (p.cwd = k))).length := by
  unfold getProcessCount countProcessesPerCwd
  rw [countProcesses_foldl]
  simp [lookupG_nil]

-- ### getAllSessions lemmas

theorem touchStatus_id (now : Nat) (s : Session) :
    (touchStatus now s).id = s.id := rfl

theorem get?_map_touch (now : Nat) (st : Store) (j : String) :
    Store.get? (st.map (touchStatus now)) j =
      (st.get? j).map (touchStatus now) := by
  induction st with
  | nil => rfl
  | cons t rest ih =>
      rw [List.map_cons, get?_cons, get?_cons]
      by_cases h : t.id = j
      · have : (touchStatus now t).id = j := h
        rw [if_pos this, if_pos h]
        rfl
      · have : (touchStatus now t).id ≠ j := h
        rw [if_neg this, if_neg h]
        exact ih

theorem map_id_map_touch (now : Nat) (st : Store) :
    (st.map (touchStatus now)).map (fun s => s.id) =
      st.map (fun s => s.id) := by
  rw [List.map_map]
  rfl

theorem StoreWF_map_touch (now : Nat) {st : Store} (hWF : StoreWF st) :
    StoreWF (st.map (touchStatus now)) := by
  unfold StoreWF
  rw [map_id_map_touch]
  exact hWF

theorem getAllSessions_store (now : Nat) (st : Store) :
    (getAllSessions now st).2 = st.map (touchStatus now) := rfl

theorem getAllSessions_fst_perm (now : Nat) (st : Store) :
    List.Perm (getAllSessions now st).1 (st.map (touchStatus now)) :=
  sortByKeyDesc_perm _ _

theorem getAllSessions_ids_nodup (now : Nat) {st : Store}
    (hWF : StoreWF st) :
    ((getAllSessions now st).1.map (fun s => s.id)).Nodup := by
  have hperm := (getAllSessions_fst_perm now st).map (fun s => s.id)
  have : StoreWF (st.map (touchStatus now)) := StoreWF_map_touch now hWF
  exact hperm.nodup_iff.mpr this

-- ### cleanupDeadSessions machinery

theorem cleanupStep_store_untouched (now : Nat)
    (counts : List (String × Nat)) (q : Nat × Store)
    (g : String × List Session) {j : String}
    (h : ∀ s ∈ g.2, s.id ≠ j) :
    (cleanupStep now counts q g).2.get? j = q.2.get? j := by
  unfold cleanupStep
  have hsorted : ∀ s ∈ sortByKeyDesc (fun s => s.lastActivity) g.2,
      s.id ≠ j := fun s hs => h s (mem_sortByKeyDesc.mp hs)
  have hdrop : ∀ s ∈ (sortByKeyDesc (fun s => s.lastActivity) g.2).drop
      (getProcessCount counts g.1), s.id ≠ j :=
    fun s hs => hsorted s (List.drop_subset _ _ hs)
  by_cases hpc : getProcessCount counts g.1 = 0
  · rw [if_pos hpc]
    rw [endAll_store_untouched now _ hsorted]
    rw [endAll_store_untouched now _ hdrop]
  · rw [if_neg hpc]
    rw [endAll_store_untouched now _ hdrop]

theorem cleanupStep_keeps_ended (now : Nat)
    (counts : List (String × Nat)) (q : Nat × Store)
    (g : String × List Session) {j : String} {r : Session}
    (h : q.2.get? j = some r) (hr : r.status = .ended) :
    ∃ r', (cleanupStep now counts q g).2.get? j = some r' ∧
      r'.status = .ended := by
  unfold cleanupStep
  by_cases hpc : getProcessCount counts g.1 = 0
  · rw [if_pos hpc]
    rcases endAll_keeps_ended now _ h hr with ⟨r1, h1, hr1⟩
    exact endAll_keeps_ended now _ h1 hr1
  · rw [if_neg hpc]
    exact endAll_keeps_ended now _ h hr

theorem cleanupStep_isSome (now : Nat) (counts : List (String × Nat))
    (q : Nat × Store) (g : String × List Session) {j : String}
    (h : (q.2.get? j).isSome) :
    ((cleanupStep now counts q g).2.get? j).isSome := by
  unfold cleanupStep
  by_cases hpc : getProcessCount counts g.1 = 0
  · rw [if_pos hpc]
    exact endAll_isSome now _ (endAll_isSome now _ h)
  · rw [if_neg hpc]
    exact endAll_isSome now _ h

theorem cleanupStep_isSome_rev (now : Nat) (counts : List (String × Nat))
    (q : Nat × Store) (g : String × List Session) {j : String}
    (h : ((cleanupStep now counts q g).2.get? j).isSome) :
    (q.2.get? j).isSome := by
  unfold cleanupStep at h
  by_cases hpc : getProcessCount counts g.1 = 0
  · rw [if_pos hpc] at h
    exact endAll_isSome_rev now _ (endAll_isSome_rev now _ h)
  · rw [if_neg hpc] at h
    exact endAll_isSome_rev now _ h

theorem cleanupStep_WF (now : Nat) (counts : List (String × Nat))
    (q : Nat × Store) (g : String × List Session)
    (hWF : StoreWF q.2) : StoreWF (cleanupStep now counts q g).2 := by
  unfold cleanupStep
  by_cases hpc : getProcessCount counts g.1 = 0
  · rw [if_pos hpc]
    exact endAll_WF now _ (endAll_WF now _ hWF)
  · rw [if_neg hpc]
    exact endAll_WF now _ hWF

theorem foldl_cleanupStep_untouched (now : Nat)
    (counts : List (String × Nat)) {j : String}
    (gs : List (String × List Session)) (q : Nat × Store)
    (h : ∀ g ∈ gs, ∀ s ∈ g.2, s.id ≠ j) :
    (gs.foldl (cleanupStep now counts) q).2.get? j = q.2.get? j := by
  induction gs generalizing q with
  | nil => rfl
  | cons g tl ih =>
      rw [List.foldl_cons]
      rw [ih _ (fun g' hg' => h g' (List.mem_cons_of_mem g hg'))]
      exact cleanupStep_store_untouched now counts q g
        (h g (List.mem_cons_self g tl))

theorem foldl_cleanupStep_keeps_ended (now : Nat)
    (counts : List (String × Nat)) {j : String} {r : Session}
    (gs : List (String × List Session)) (q : Nat × Store)
    (h : q.2.get? j = some r) (hr : r.status = .ended) :
    ∃ r', (gs.foldl (cleanupStep now counts) q).2.get? j = some r' ∧
      r'.status = .ended := by
  induction gs generalizing q r with
  | nil => exact ⟨r, h, hr⟩
  | cons g tl ih =>
      rw [List.foldl_cons]
      rcases cleanupStep_keeps_ended now counts q g h hr with ⟨r1, h1, hr1⟩
      exact ih _ h1 hr1

theorem foldl_cleanupStep_isSome_rev (now : Nat)
    (counts : List (String × Nat)) {j : String}
    (gs : List (String × List Session)) (q : Nat × Store)
    (h : ((gs.foldl (cleanupStep now counts) q).2.get? j).isSome) :
    (q.2.get? j).isSome := by
  induction gs generalizing q with
  | nil => exact h
  | cons g tl ih =>
      rw [List.foldl_cons] at h
      exact cleanupStep_isSome_rev now counts q g (ih _ h)

theorem foldl_cleanupStep_WF (now : Nat)
    (counts : List (String × Nat))
    (gs : List (String × List Session)) (q : Nat × Store)
    (hWF : StoreWF q.2) :
    StoreWF (gs.foldl (cleanupStep now counts) q).2 := by
  induction gs generalizing q with
  | nil => exact hWF
  | cons g tl ih =>
      rw [List.foldl_cons]
      exact ih _ (cleanupStep_WF now counts q g hWF)

theorem filter_ids_nodup {l : List Session}
    (h : (l.map (fun s => s.id)).Nodup) (p : Session → Bool) :
    ((l.filter p).map (fun s => s.id)).Nodup :=
  h.sublist ((List.filter_sublist l).map _)

theorem mem_all_get? (now : Nat) {st : Store} (hWF : StoreWF st)
    {s : Session} (h : s ∈ (getAllSessions now st).1) :
    (getAllSessions now st).2.get? s.id = some s := by
  rw [getAllSessions_store]
  have hmem : s ∈ st.map (touchStatus now) :=
    (getAllSessions_fst_perm now st).subset h
  exact get?_of_mem (StoreWF_map_touch now hWF) hmem

theorem liveAt_group (now : Nat) (st : Store) (path : String)
    (hne : ((getAllSessions now st).1.filter
        (fun s => !decide (s.status = SessionStatus.ended))).filter
        (fun s => decide (s.projectPath = path)) ≠ []) :
    (path, ((getAllSessions now st).1.filter
        (fun s => !decide (s.status = SessionStatus.ended))).filter
        (fun s => decide (s.projectPath = path))) ∈
      groupByKey (fun s => s.projectPath)
        ((getAllSessions now st).1.filter
          (fun s => !decide (s.status = SessionStatus.ended))) := by
  obtain ⟨x, hx⟩ := List.exists_mem_of_ne_nil _ hne
  have hx1 := (List.mem_filter.mp hx).1
  have hx2 : x.projectPath = path :=
    of_decide_eq_true (List.mem_filter.mp hx).2
  rw [← hx2]
  exact groupByKey_coverage hx1

theorem cleanupStep_eq (now : Nat) (counts : List (String × Nat))
    (q : Nat × Store) (k : String) (l : List Session) :
    cleanupStep now counts q (k, l) =
      (if getProcessCount counts k = 0 then
        endAll now (sortByKeyDesc (fun s => s.lastActivity) l)
          (endAll now ((sortByKeyDesc (fun s => s.lastActivity) l).drop
            (getProcessCount counts k)) q)
      else
        endAll now ((sortByKeyDesc (fun s => s.lastActivity) l).drop
          (getProcessCount counts k)) q) := rfl

theorem cleanupDeadSessions_eq (now : Nat)
    (counts : List (String × Nat)) (st : Store) :
    cleanupDeadSessions now counts st =
      (groupByKey (fun s => s.projectPath)
        ((getAllSessions now st).1.filter
          (fun s => !decide (s.status = SessionStatus.ended)))).foldl
        (cleanupStep now counts) (0, (getAllSessions now st).2) := rfl

/-- Central pruning lemma: after one `cleanupDeadSessions` pass, every
live session beyond the path's process quota is ended, and (when the
quota is positive) every live session within the quota is untouched. -/
theorem cleanup_liveAt_spec (now : Nat) (counts : List (String × Nat))
    (st : Store) (path : String) (hWF : StoreWF st) :
    (∀ s ∈ (liveSessionsAt now st path).drop (getProcessCount counts path),
       ∃ r, (cleanupDeadSessions now counts st).2.get? s.id = some r ∧
         r.status = SessionStatus.ended) ∧
    (getProcessCount counts path ≠ 0 →
       ∀ s ∈ (liveSessionsAt now st path).take (getProcessCount counts path),
         (cleanupDeadSessions now counts st).2.get? s.id = some s ∧
           ¬ s.status = SessionStatus.ended) := by
  by_cases hlf : ((getAllSessions now st).1.filter
      (fun s => !decide (s.status = SessionStatus.ended))).filter
      (fun s => decide (s.projectPath = path)) = []
  · constructor
    · intro s hs
      unfold liveSessionsAt at hs
      rw [hlf] at hs
      simp [sortByKeyDesc] at hs
    · intro _ s hs
      unfold liveSessionsAt at hs
      rw [hlf] at hs
      simp [sortByKeyDesc] at hs
  · -- shared setup
    have hWF1 : StoreWF (getAllSessions now st).2 := by
      rw [getAllSessions_store]
      exact StoreWF_map_touch now hWF
    have hallN : ((getAllSessions now st).1.map (fun s => s.id)).Nodup :=
      getAllSessions_ids_nodup now hWF
    have hliveN : (((getAllSessions now st).1.filter
        (fun s => !decide (s.status = SessionStatus.ended))).map
        (fun s => s.id)).Nodup := filter_ids_nodup hallN _
    have hinj := List.inj_on_of_nodup_map hliveN
    have hgstar := liveAt_group now st path hlf
    obtain ⟨pre, post, hsplit⟩ := List.append_of_mem hgstar
    have hkeysN := nodup_keys_groupByKey (fun s => s.projectPath)
      ((getAllSessions now st).1.filter
        (fun s => !decide (s.status = SessionStatus.ended)))
    rw [hsplit, List.map_append, List.map_cons] at hkeysN
    rw [List.nodup_append] at hkeysN
    have hprepath : ∀ g ∈ pre, (g : String × List Session).1 ≠ path := by
      intro g hg hEq
      have hmem : g.1 ∈ pre.map Prod.fst := List.mem_map.mpr ⟨g, hg, rfl⟩
      have := hkeysN.2.2 hmem
      rw [hEq] at this
      exact this (List.mem_cons_self _ _)
    have hpostpath : ∀ g ∈ post, (g : String × List Session).1 ≠ path := by
      intro g hg hEq
      have h1 := (List.nodup_cons.mp hkeysN.2.1).1
      rw [← hEq] at h1
      exact h1 (List.mem_map.mpr ⟨g, hg, rfl⟩)
    -- sessions in other groups have different ids from sessions at path
    have hothers : ∀ g ∈ pre ++ post, ∀ s' ∈
        (g : String × List Session).2, ∀ s ∈
        ((getAllSessions now st).1.filter
          (fun s => !decide (s.status = SessionStatus.ended))).filter
          (fun s => decide (s.projectPath = path)),
        s'.id ≠ s.id := by
      intro g hg s' hs' s hs hEq
      have hgmem : g ∈ groupByKey (fun s => s.projectPath)
          ((getAllSessions now st).1.filter
            (fun s => !decide (s.status = SessionStatus.ended))) := by
        rw [hsplit]
        rcases List.mem_append.mp hg with h | h
        · exact List.mem_append.mpr (Or.inl h)
        · exact List.mem_append.mpr
            (Or.inr (List.mem_cons_of_mem _ h))
      obtain ⟨k, l⟩ := g
      have hgval := (mem_groupByKey hgmem).1
      rw [hgval] at hs'
      have hs'live := (List.mem_filter.mp hs').1
      have hs'path : s'.projectPath = k :=
        of_decide_eq_true (List.mem_filter.mp hs').2
      have hslive := (List.mem_filter.mp hs).1
      have hspath : s.projectPath = path :=
        of_decide_eq_true (List.mem_filter.mp hs).2
      have : s' = s := hinj hs'live hslive hEq
      rw [this] at hs'path
      rw [hspath] at hs'path
      have hkpath : k ≠ path := by
        rcases List.mem_append.mp hg with h | h
        · exact hprepath _ h
        · exact hpostpath _ h
      exact hkpath hs'path.symm
    -- unfold the cleanup fold along the split
    have hfold : (cleanupDeadSessions now counts st).2 =
        (post.foldl (cleanupStep now counts)
          (cleanupStep now counts
            (pre.foldl (cleanupStep now counts)
              (0, (getAllSessions now st).2))
            (path, ((getAllSessions now st).1.filter
              (fun s => !decide (s.status = SessionStatus.ended))).filter
              (fun s => decide (s.projectPath = path))))).2 := by
      rw [cleanupDeadSessions_eq, hsplit, List.foldl_append,
        List.foldl_cons]
    constructor
    · -- beyond the quota: ended
      intro s hs
      unfold liveSessionsAt at hs
      have hsS : s ∈ sortByKeyDesc (fun s => s.lastActivity)
          (((getAllSessions now st).1.filter
            (fun s => !decide (s.status = SessionStatus.ended))).filter
            (fun s => decide (s.projectPath = path))) :=
        List.drop_subset _ _ hs
      have hslf := mem_sortByKeyDesc.mp hsS
      have hsall : s ∈ (getAllSessions now st).1 :=
        List.mem_of_mem_filter ((List.mem_filter.mp hslf).1)
      have hpreget : (pre.foldl (cleanupStep now counts)
          (0, (getAllSessions now st).2)).2.get? s.id =
          some s := by
        rw [foldl_cleanupStep_untouched now counts pre _
          (fun g hg s' hs' =>
            hothers g (List.mem_append.mpr (Or.inl hg)) s' hs' s hslf)]
        exact mem_all_get? now hWF hsall
      have hstep : ∃ r, (cleanupStep now counts
          (pre.foldl (cleanupStep now counts)
            (0, (getAllSessions now st).2))
          (path, ((getAllSessions now st).1.filter
            (fun s => !decide (s.status = SessionStatus.ended))).filter
            (fun s => decide (s.projectPath = path)))).2.get? s.id =
          some r ∧ r.status = SessionStatus.ended := by
        rw [cleanupStep_eq]
        have hend := endAll_ends now
          (pre.foldl (cleanupStep now counts)
            (0, (getAllSessions now st).2)) hs
          (by rw [hpreget]; rfl)
        rcases hend with ⟨r, hr, hrE⟩
        by_cases hpc : getProcessCount counts path = 0
        · rw [if_pos hpc]
          exact endAll_keeps_ended now _ hr hrE
        · rw [if_neg hpc]
          exact ⟨r, hr, hrE⟩
      rcases hstep with ⟨r, hr, hrE⟩
      rw [hfold]
      exact foldl_cleanupStep_keeps_ended now counts post _ hr hrE
    · -- within the quota: untouched
      intro hq s hs
      unfold liveSessionsAt at hs
      have hsS : s ∈ sortByKeyDesc (fun s => s.lastActivity)
          (((getAllSessions now st).1.filter
            (fun s => !decide (s.status = SessionStatus.ended))).filter
            (fun s => decide (s.projectPath = path))) :=
        List.take_subset _ _ hs
      have hslf := mem_sortByKeyDesc.mp hsS
      have hsall : s ∈ (getAllSessions now st).1 :=
        List.mem_of_mem_filter ((List.mem_filter.mp hslf).1)
      have hsnotended : ¬ s.status = SessionStatus.ended := by
        have := (List.mem_filter.mp ((List.mem_filter.mp hslf).1)).2
        simpa using this
      have hSN : ((sortByKeyDesc (fun s => s.lastActivity)
          (((getAllSessions now st).1.filter
            (fun s => !decide (s.status = SessionStatus.ended))).filter
            (fun s => decide (s.projectPath = path)))).map
          (fun s => s.id)).Nodup := by
        have hperm := (sortByKeyDesc_perm (fun s : Session => s.lastActivity)
          (((getAllSessions now st).1.filter
            (fun s => !decide (s.status = SessionStatus.ended))).filter
            (fun s => decide (s.projectPath = path)))).map (fun s => s.id)
        exact hperm.nodup_iff.mpr (filter_ids_nodup hliveN _)
      have hdropne : ∀ t ∈ (sortByKeyDesc (fun s => s.lastActivity)
          (((getAllSessions now st).1.filter
            (fun s => !decide (s.status = SessionStatus.ended))).filter
            (fun s => decide (s.projectPath = path)))).drop
          (getProcessCount counts path), t.id ≠ s.id := by
        intro t ht hEq
        have hSnodup : (sortByKeyDesc (fun s : Session => s.lastActivity)
            (((getAllSessions now st).1.filter
              (fun s => !decide (s.status = SessionStatus.ended))).filter
              (fun s => decide (s.projectPath = path)))).Nodup :=
          List.Nodup.of_map _ hSN
        have hts : t = s :=
          List.inj_on_of_nodup_map hSN (List.drop_subset _ _ ht)
            (List.take_subset _ _ hs) hEq
        rw [hts] at ht
        have hsplitS := List.take_append_drop
          (getProcessCount counts path)
          (sortByKeyDesc (fun s : Session => s.lastActivity)
            (((getAllSessions now st).1.filter
              (fun s => !decide (s.status = SessionStatus.ended))).filter
              (fun s => decide (s.projectPath = path))))
        rw [← hsplitS] at hSnodup
        have hdisj := (List.nodup_append.mp hSnodup).2.2
        exact hdisj hs ht
      have hpreget : (pre.foldl (cleanupStep now counts)
          (0, (getAllSessions now st).2)).2.get? s.id =
          some s := by
        rw [foldl_cleanupStep_untouched now counts pre _
          (fun g hg s' hs' =>
            hothers g (List.mem_append.mpr (Or.inl hg)) s' hs' s hslf)]
        exact mem_all_get? now hWF hsall
      have hstep : (cleanupStep now counts
          (pre.foldl (cleanupStep now counts)
            (0, (getAllSessions now st).2))
          (path, ((getAllSessions now st).1.filter
            (fun s => !decide (s.status = SessionStatus.ended))).filter
            (fun s => decide (s.projectPath = path)))).2.get? s.id =
          some s := by
        rw [cleanupStep_eq]
        rw [if_neg hq]
        rw [endAll_store_untouched now _ hdropne]
        exact hpreget
      rw [hfold]
      rw [foldl_cleanupStep_untouched now counts post _
        (fun g hg s' hs' =>
          hothers g (List.mem_append.mpr (Or.inr hg)) s' hs' s hslf)]
      exact ⟨hstep, hsnotended⟩

-- ### Mass-end on an empty process snapshot

theorem getProcessCount_nil (path : String) :
    getProcessCount [] path = 0 := rfl

theorem cleanup_nil_counts_all_ended (now : Nat) (st : Store)
    (hWF : StoreWF st) {id : String} {r : Session}
    (h : (cleanupDeadSessions now [] st).2.get? id = some r) :
    r.status = SessionStatus.ended := by
  have hSome : (((cleanupDeadSessions now [] st).2).get? id).isSome := by
    rw [h]; rfl
  rw [cleanupDeadSessions_eq] at hSome
  have hSome1 := foldl_cleanupStep_isSome_rev now [] _ _ hSome
  rcases Option.isSome_iff_exists.mp hSome1 with ⟨s0, hs0⟩
  have hid : s0.id = id := get?_eq_id hs0
  by_cases hE : s0.status = SessionStatus.ended
  · have := foldl_cleanupStep_keeps_ended now []
      (groupByKey (fun s => s.projectPath)
        ((getAllSessions now st).1.filter
          (fun s => !decide (s.status = SessionStatus.ended))))
      (0, (getAllSessions now st).2) hs0 hE
    rcases this with ⟨r', hr', hrE'⟩
    rw [cleanupDeadSessions_eq, hr'] at h
    cases h
    exact hrE'
  · -- s0 is live, so it belongs to its path's group with quota 0
    have hmem1 : s0 ∈ (getAllSessions now st).2 := mem_of_get? hs0
    have hmemAll : s0 ∈ (getAllSessions now st).1 :=
      (getAllSessions_fst_perm now st).mem_iff.mpr
        (by rw [getAllSessions_store] at hmem1; exact hmem1)
    have hmemLive : s0 ∈ (getAllSessions now st).1.filter
        (fun s => !decide (s.status = SessionStatus.ended)) :=
      List.mem_filter.mpr ⟨hmemAll, by simpa using hE⟩
    have hmemLf : s0 ∈ ((getAllSessions now st).1.filter
        (fun s => !decide (s.status = SessionStatus.ended))).filter
        (fun s => decide (s.projectPath = s0.projectPath)) :=
      List.mem_filter.mpr ⟨hmemLive, by simp⟩
    have hmemLA : s0 ∈ (liveSessionsAt now st s0.projectPath).drop
        (getProcessCount [] s0.projectPath) := by
      rw [getProcessCount_nil, List.drop_zero]
      unfold liveSessionsAt
      exact mem_sortByKeyDesc.mpr hmemLf
    have := (cleanup_liveAt_spec now [] st s0.projectPath hWF).1 s0 hmemLA
    rcases this with ⟨r', hr', hrE'⟩
    rw [hid] at hr'
    rw [hr'] at h
    cases h
    exact hrE'

theorem foldl_congr_id {α β : Type} (gs : List α) (f : β → α → β)
    (acc : β) (h : ∀ b : β, ∀ a ∈ gs, f b a = b) :
    gs.foldl f acc = acc := by
  induction gs generalizing acc with
  | nil => rfl
  | cons g tl ih =>
      rw [List.foldl_cons, h acc g (List.mem_cons_self g tl)]
      exact ih acc (fun b a ha => h b a (List.mem_cons_of_mem g ha))

theorem scanProjectDir_counts_nil (env : ScanEnv) (st : Store)
    (index : Option SessionIndex) :
    scanProjectDir env [] st index = [] := by
  cases index with
  | none => rfl
  | some idx =>
      show (groupByKey (fun e => e.projectPath) idx.entries).foldl
        (fun sessions g =>
          let processCount := getProcessCount [] g.1
          if processCount = 0 then sessions
          else
            let sorted := sortByKeyDesc (fun e => e.modified) g.2
            let toImport := sorted.take processCount
            sessions ++ toImport.filterMap (fun entry =>
              if st.hasSession entry.sessionId then none
              else some (buildImportedSession env entry))) [] = []
      apply foldl_congr_id
      intro b g _
      show (if getProcessCount [] g.1 = 0 then b else _) = b
      rw [if_pos (getProcessCount_nil g.1)]

theorem countProcessesPerCwd_nil : countProcessesPerCwd [] = [] := rfl

theorem scan_store_of_processes_nil (env : ScanEnv) (st : Store)
    (hP : env.processes = []) :
    (scan env st).2 = (cleanupDeadSessions env.now [] st).2 := by
  show ((env.indexes.foldl
      (fun acc index => acc ++ scanProjectDir env
        (countProcessesPerCwd env.processes)
        (cleanupDeadSessions env.now
          (countProcessesPerCwd env.processes) st).2 index) []).foldl
      (fun s session => (importSession session s).store)
      (cleanupDeadSessions env.now
        (countProcessesPerCwd env.processes) st).2) =
    (cleanupDeadSessions env.now [] st).2
  rw [hP, countProcessesPerCwd_nil]
  have hdisc : env.indexes.foldl
      (fun acc index => acc ++ scanProjectDir env []
        (cleanupDeadSessions env.now [] st).2 index) [] = [] :=
    foldl_congr_id _ _ _ (fun b index _ => by
      rw [scanProjectDir_counts_nil env _ index, List.append_nil])
  rw [hdisc]
  rfl

-- ### scanProjectDir membership machinery

theorem foldl_ext {α β : Type} (f g : β → α → β) (l : List α) (acc : β)
    (h : ∀ b : β, ∀ a ∈ l, f b a = g b a) :
    l.foldl f acc = l.foldl g acc := by
  induction l generalizing acc with
  | nil => rfl
  | cons x tl ih =>
      rw [List.foldl_cons, List.foldl_cons,
        h acc x (List.mem_cons_self x tl)]
      exact ih _ (fun b a ha => h b a (List.mem_cons_of_mem x ha))

theorem foldl_append_join {α β : Type} (f : α → List β) (l : List α)
    (acc : List β) :
    l.foldl (fun a x => a ++ f x) acc = acc ++ (l.map f).flatten := by
  induction l generalizing acc with
  | nil => simp
  | cons x tl ih =>
      rw [List.foldl_cons, ih, List.map_cons, List.flatten_cons]
      rw [List.append_assoc]

theorem scanProjectDir_eq_join (env : ScanEnv)
    (counts : List (String × Nat)) (st : Store) (idx : SessionIndex) :
    scanProjectDir env counts st (some idx) =
      ((groupByKey (fun e => e.projectPath) idx.entries).map
        (scanContrib env counts st)).flatten := by
  show (groupByKey (fun e => e.projectPath) idx.entries).foldl
    (fun sessions g =>
      let processCount := getProcessCount counts g.1
      if processCount = 0 then sessions
      else
        let sorted := sortByKeyDesc (fun e => e.modified) g.2
        let toImport := sorted.take processCount
        sessions ++ toImport.filterMap (fun entry =>
          if st.hasSession entry.sessionId then none
          else some (buildImportedSession env entry))) [] = _
  rw [foldl_ext _ (fun a x => a ++ scanContrib env counts st x) _ _
    (fun b g _ => by
      show (if getProcessCount counts g.1 = 0 then b else _) =
        b ++ scanContrib env counts st g
      unfold scanContrib
      by_cases hpc : getProcessCount counts g.1 = 0
      · rw [if_pos hpc, if_pos hpc, List.append_nil]
      · rw [if_neg hpc, if_neg hpc])]
  rw [foldl_append_join]
  rfl

theorem mem_scanContrib {env : ScanEnv} {counts : List (String × Nat)}
    {st : Store} {g : String × List SessionIndexEntry} {s : Session} :
    s ∈ scanContrib env counts st g ↔
      getProcessCount counts g.1 ≠ 0 ∧
      ∃ entry ∈ (sortByKeyDesc (fun e => e.modified) g.2).take
          (getProcessCount counts g.1),
        st.hasSession entry.sessionId = false ∧
          s = buildImportedSession env entry := by
  unfold scanContrib
  by_cases hpc : getProcessCount counts g.1 = 0
  · rw [if_pos hpc]
    simp [hpc]
  · rw [if_neg hpc]
    rw [List.mem_filterMap]
    constructor
    · rintro ⟨entry, hmem, hEq⟩
      by_cases hhas : st.hasSession entry.sessionId
      · rw [if_pos hhas] at hEq; cases hEq
      · rw [if_neg hhas] at hEq
        cases hEq
        exact ⟨hpc, entry, hmem, Bool.eq_false_iff.mpr hhas, rfl⟩
    · rintro ⟨-, entry, hmem, hhas, hEq⟩
      refine ⟨entry, hmem, ?_⟩
      rw [hhas]
      rw [hEq]
      rfl

theorem mem_scanProjectDir {env : ScanEnv} {counts : List (String × Nat)}
    {st : Store} {idx : SessionIndex} {s : Session} :
    s ∈ scanProjectDir env counts st (some idx) ↔
      ∃ g ∈ groupByKey (fun e => e.projectPath) idx.entries,
        s ∈ scanContrib env counts st g := by
  rw [scanProjectDir_eq_join]
  rw [List.mem_flatten]
  constructor
  · rintro ⟨l, hl, hs⟩
    rcases List.mem_map.mp hl with ⟨g, hg, rfl⟩
    exact ⟨g, hg, hs⟩
  · rintro ⟨g, hg, hs⟩
    exact ⟨scanContrib env counts st g, List.mem_map_of_mem _ hg, hs⟩

theorem buildImportedSession_id (env : ScanEnv)
    (entry : SessionIndexEntry) :
    (buildImportedSession env entry).id = entry.sessionId := rfl

theorem buildImportedSession_projectPath (env : ScanEnv)
    (entry : SessionIndexEntry) :
    (buildImportedSession env entry).projectPath = entry.projectPath := rfl

theorem buildImportedSession_pending (env : ScanEnv)
    (entry : SessionIndexEntry) :
    (buildImportedSession env entry).pendingState =
      (getLastPendingStateForSession env.rawEvents
        entry.sessionId).map Prod.fst ∧
    (buildImportedSession env entry).pendingMessage =
      ((getLastPendingStateForSession env.rawEvents
        entry.sessionId).map Prod.snd).getD "" := ⟨rfl, rfl⟩

-- ### Operation equation lemmas

theorem updateActivity_store_of_some {st : Store} {id : String}
    {s : Session} (now : Nat) (toolName toolInput : String)
    (h : st.get? id = some s) :
    (updateActivity now id toolName toolInput st).store =
      st.set { s with lastActivity := now, lastTool := toolName,
                      lastToolInput := toolInput,
                      status := calculateStatus now
                        { s with lastActivity := now, lastTool := toolName,
                                 lastToolInput := toolInput },
                      pendingState := none, pendingMessage := "" } := by
  unfold updateActivity
  rw [h]

theorem setPendingState_store_of_some {st : Store} {id : String}
    {s : Session} (now : Nat) (ps : Option PendingState) (msg : String)
    (h : st.get? id = some s) :
    (setPendingState now id ps msg st).store =
      st.set { s with pendingState := ps, pendingMessage := msg,
                      lastActivity := now } := by
  unfold setPendingState
  rw [h]

theorem calculateStatus_of_ended {s : Session} (now : Nat)
    (h : s.status = SessionStatus.ended) :
    calculateStatus now s = SessionStatus.ended := by
  unfold calculateStatus
  rw [if_pos h]

-- ### C1

/-- C1 counterexample: `createSession` is not idempotent.  Creating id
"a" at time 0 and again at time 5 leaves the registry size at 1 but
replaces the record: the original `startedAt = 0` is not preserved, the
second call stores `startedAt = 5`. -/
theorem createSession_not_idempotent_cex :
    (((createSession 0 "a" "/p" "t" []).store.get? "a").map
        (fun s => s.startedAt) = some 0) ∧
    (((createSession 5 "a" "/p" "t"
          (createSession 0 "a" "/p" "t" []).store).store.get? "a").map
        (fun s => s.startedAt) = some 5) ∧
    ((createSession 5 "a" "/p" "t"
        (createSession 0 "a" "/p" "t" []).store).store.size = 1) ∧
    (0 : Nat) ≠ 5 := by
  refine ⟨rfl, rfl, rfl, by decide⟩

/-- C1 (amended): `createSession` unconditionally overwrites: after the
call the registry maps `id` to a fresh record with `status = active`,
`lastActivityAt = startedAt = now` and no pending state, regardless of
whether `id` already existed; the registry size is unchanged when the id
existed (the key is overwritten, never duplicated) and grows by one
otherwise.  Only the size part of the original claim holds; the
"return existing record unchanged" part does not. -/
theorem createSession_overwrite_semantics (now : Nat)
    (id projectPath transcriptPath : String) (st : Store) :
    ((createSession now id projectPath transcriptPath st).store.get? id =
      (createSession now id projectPath transcriptPath st).res) ∧
    ((createSession now id projectPath transcriptPath st).res.map
        (fun s => (s.startedAt, s.lastActivity, s.status, s.pendingState,
          s.pendingMessage)) =
      some (now, now, SessionStatus.active, none, "")) ∧
    ((createSession now id projectPath transcriptPath st).store.size =
      if (st.get? id).isSome then st.size else st.size + 1) := by
  refine ⟨?_, rfl, ?_⟩
  · exact get?_set_self st _
  · exact length_set st _

-- ### C3

/-- C3 counterexample: `ended` is not frozen.  After ending session "a"
(status ended, no pending state, lastActivity 1), a later
`setPendingState` call resurrects `pendingState = permission_prompt`
and bumps `lastActivity` to 2 while the stored status is still `ended`,
contradicting "any subsequent mutating call is a no-op returning the
frozen record". -/
theorem ended_not_frozen_cex :
    ((((endSession 1 "a"
          (createSession 0 "a" "/p" "t" []).store).store).get? "a").map
        (fun s => (s.status, s.pendingState, s.lastActivity)) =
      some (SessionStatus.ended, none, 1)) ∧
    (((setPendingState 2 "a" (some PendingState.permission_prompt) "m"
          (endSession 1 "a"
            (createSession 0 "a" "/p" "t" []).store).store).store.get?
        "a").map
        (fun s => (s.status, s.pendingState, s.lastActivity)) =
      some (SessionStatus.ended, some PendingState.permission_prompt, 2)) := by
  refine ⟨rfl, rfl⟩

/-- C3 (amended): on an ended session, `updateActivity` and `endSession`
keep the status `ended` (calculateStatus keeps `ended` sticky) but the
calls are not no-ops: `updateActivity` rewrites `lastActivityAt`,
`lastTool`, `lastToolInput` and clears pending state; `setPendingState`
sets `pendingState`/`pendingMessage` and bumps `lastActivityAt` on the
still-`ended` record (so `ended` can coexist with a pending state); a
second `endSession` bumps `lastActivityAt` again. -/
theorem ended_session_mutation_semantics (now : Nat)
    (id toolName toolInput msg : String) (ps : Option PendingState)
    (st : Store) (s : Session) (h : st.get? id = some s)
    (hE : s.status = SessionStatus.ended) :
    ((updateActivity now id toolName toolInput st).store.get? id =
      some { s with lastActivity := now, lastTool := toolName,
                    lastToolInput := toolInput,
                    status := SessionStatus.ended,
                    pendingState := none, pendingMessage := "" }) ∧
    ((setPendingState now id ps msg st).store.get? id =
      some { s with pendingState := ps, pendingMessage := msg,
                    lastActivity := now }) ∧
    (({ s with pendingState := ps, pendingMessage := msg,
               lastActivity := now } : Session).status =
      SessionStatus.ended) ∧
    ((endSession now id st).store.get? id =
      some { s with pendingState := none, pendingMessage := "",
                    status := SessionStatus.ended, lastActivity := now }) := by
  have hid : s.id = id := get?_eq_id h
  refine ⟨?_, ?_, hE, ?_⟩
  · rw [updateActivity_store_of_some now toolName toolInput h]
    have hcalc : calculateStatus now
        { s with lastActivity := now, lastTool := toolName,
                 lastToolInput := toolInput } = SessionStatus.ended :=
      calculateStatus_of_ended now hE
    rw [hcalc]
    rw [← hid]
    exact get?_set_self st _
  · rw [setPendingState_store_of_some now ps msg h]
    rw [← hid]
    exact get?_set_self st _
  · rw [endSession_store_of_some now h]
    rw [← hid]
    exact get?_set_self st _

/-- Witness for the amended C3 theorem at a concrete ended store. -/
theorem ended_session_mutation_semantics_witness :
    ((updateActivity 5 "a" "T" "I" endedStoreEx).store.get? "a" =
      some { endedSessionEx with lastActivity := 5, lastTool := "T",
                                 lastToolInput := "I",
                                 status := SessionStatus.ended,
                                 pendingState := none,
                                 pendingMessage := "" }) ∧
    ((setPendingState 5 "a" (some PendingState.permission_prompt) "M"
        endedStoreEx).store.get? "a" =
      some { endedSessionEx with
             pendingState := some PendingState.permission_prompt,
             pendingMessage := "M", lastActivity := 5 }) ∧
    (({ endedSessionEx with
        pendingState := some PendingState.permission_prompt,
        pendingMessage := "M", lastActivity := 5 } : Session).status =
      SessionStatus.ended) ∧
    ((endSession 5 "a" endedStoreEx).store.get? "a" =
      some { endedSessionEx with pendingState := none,
                                 pendingMessage := "",
                                 status := SessionStatus.ended,
                                 lastActivity := 5 }) :=
  ended_session_mutation_semantics 5 "a" "T" "I" "M"
    (some PendingState.permission_prompt)
    endedStoreEx endedSessionEx (by decide) (by decide)

-- ### C4

theorem calculateStatus_eq_spec (now : Nat) (s : Session) :
    calculateStatus now s =
      if s.status = SessionStatus.ended then SessionStatus.ended
      else specStatusOfElapsed ((now : Int) - (s.lastActivity : Int)) := by
  unfold calculateStatus specStatusOfElapsed ACTIVE_THRESHOLD IDLE_THRESHOLD
  norm_num

/-- C4: statuses returned by get/list: an ended record yields `ended`;
otherwise the status is the pure function `specStatusOfElapsed` of
`now - lastActivityAt`, with strict thresholds: `elapsed < 30000 ms`
gives active, `30000 ≤ elapsed < 300000` gives idle, `300000 ≤ elapsed`
gives stale, so the status moves active → idle → stale exactly at the
boundary values. -/
theorem status_derivation_thresholds (now : Nat) (id : String)
    (st : Store) (s : Session) (h : st.get? id = some s) :
    (((getSession now id st).1).map (fun r => r.status) =
      some (if s.status = SessionStatus.ended then SessionStatus.ended
        else specStatusOfElapsed ((now : Int) - (s.lastActivity : Int)))) ∧
    (∀ r ∈ (getAllSessions now st).1,
      r.status = SessionStatus.ended ∨
        r.status =
          specStatusOfElapsed ((now : Int) - (r.lastActivity : Int))) ∧
    (∀ e : Int,
      (specStatusOfElapsed e = SessionStatus.active ↔ e < 30000) ∧
      (specStatusOfElapsed e = SessionStatus.idle ↔
        30000 ≤ e ∧ e < 300000) ∧
      (specStatusOfElapsed e = SessionStatus.stale ↔ 300000 ≤ e)) := by
  refine ⟨?_, ?_, ?_⟩
  · unfold getSession
    rw [h]
    rw [← calculateStatus_eq_spec]
    rfl
  · intro r hr
    have hr2 : r ∈ st.map (touchStatus now) :=
      (getAllSessions_fst_perm now st).subset hr
    rcases List.mem_map.mp hr2 with ⟨s0, _, rfl⟩
    by_cases hE : s0.status = SessionStatus.ended
    · left
      show calculateStatus now s0 = SessionStatus.ended
      exact calculateStatus_of_ended now hE
    · right
      show calculateStatus now s0 = _
      rw [calculateStatus_eq_spec, if_neg hE]
      rfl
  · intro e
    unfold specStatusOfElapsed
    refine ⟨?_, ?_, ?_⟩
    · constructor
      · intro hEq
        by_cases h1 : e < 30000
        · exact h1
        · rw [if_neg h1] at hEq
          by_cases h2 : e < 300000 <;> simp [h2] at hEq
      · intro h1
        rw [if_pos h1]
    · constructor
      · intro hEq
        by_cases h1 : e < 30000
        · rw [if_pos h1] at hEq; cases hEq
        · rw [if_neg h1] at hEq
          by_cases h2 : e < 300000
          · exact ⟨Int.not_lt.mp h1, h2⟩
          · rw [if_neg h2] at hEq; cases hEq
      · rintro ⟨h1, h2⟩
        rw [if_neg (Int.not_lt.mpr h1), if_pos h2]
    · constructor
      · intro hEq
        by_cases h1 : e < 30000
        · rw [if_pos h1] at hEq; cases hEq
        · rw [if_neg h1] at hEq
          by_cases h2 : e < 300000
          · rw [if_pos h2] at hEq; cases hEq
          · exact Int.not_lt.mp h2
      · intro h1
        have h2 : ¬ e < 300000 := Int.not_lt.mpr h1
        have h3 : ¬ e < 30000 := fun hc => h2 (by omega)
        rw [if_neg h3, if_neg h2]

/-- Witness for C4 at a concrete store, 30000 ms after the activity:
the derived status is exactly `idle`. -/
theorem status_derivation_thresholds_witness :
    ((getSession 30000 "a"
        (createSession 0 "a" "/p" "t" []).store).1).map
      (fun r => r.status) = some SessionStatus.idle := by
  have := (status_derivation_thresholds 30000 "a"
    (createSession 0 "a" "/p" "t" []).store
    { id := "a", projectPath := "/p", projectName := "p",
      status := .active, lastActivity := 0, lastTool := "",
      lastToolInput := "", startedAt := 0, transcriptPath := "t",
      pendingState := none, pendingMessage := "" }
    (by decide)).1
  rw [this]
  rfl

-- ### C5

theorem getSession_pending_preserved (now : Nat) (id : String)
    (st : Store) (j : String) :
    ((getSession now id st).2.get? j).map pendingOf =
      (st.get? j).map pendingOf := by
  unfold getSession
  cases h : st.get? id with
  | none => rfl
  | some s =>
      have hid : s.id = id := get?_eq_id h
      by_cases hji : j = id
      · subst hji
        have h1 : (st.set { s with status := calculateStatus now s }).get?
            j = some { s with status := calculateStatus now s } := by
          rw [← hid]
          exact get?_set_self st _
        show ((st.set { s with status := calculateStatus now s }).get?
          j).map pendingOf = _
        rw [h1, h]
        rfl
      · show ((st.set { s with status := calculateStatus now s }).get?
          j).map pendingOf = _
        rw [get?_set_other st _ (by
          show j ≠ ({ s with status := calculateStatus now s } : Session).id
          show j ≠ s.id
          rw [hid]
          exact hji)]

theorem getAllSessions_pending_preserved (now : Nat) (st : Store)
    (j : String) :
    ((getAllSessions now st).2.get? j).map pendingOf =
      (st.get? j).map pendingOf := by
  rw [getAllSessions_store, get?_map_touch]
  cases st.get? j <;> rfl

theorem applyReads_pending (st : Store) (ops : List ReadOp) (j : String) :
    ((applyReads st ops).get? j).map pendingOf =
      (st.get? j).map pendingOf := by
  induction ops generalizing st with
  | nil => rfl
  | cons op tl ih =>
      show ((applyReads (applyRead st op) tl).get? j).map pendingOf = _
      rw [ih]
      cases op with
      | getOne now id => exact getSession_pending_preserved now id st j
      | getAll now => exact getAllSessions_pending_preserved now st j

theorem updateActivity_store_of_none {st : Store} {id : String}
    (now : Nat) (toolName toolInput : String)
    (h : st.get? id = none) :
    (updateActivity now id toolName toolInput st).store = st := by
  unfold updateActivity
  rw [h]

theorem setPendingState_store_of_none {st : Store} {id : String}
    (now : Nat) (ps : Option PendingState) (msg : String)
    (h : st.get? id = none) :
    (setPendingState now id ps msg st).store = st := by
  unfold setPendingState
  rw [h]

/-- C5: the passage of time never clears a pending state: any sequence
of `getSession`/`getAllSessions` reads, at arbitrary later instants
(including past the stale threshold), leaves `pendingState` and
`pendingMessage` of every stored record unchanged; pending state is
changed only by `updateActivity` (cleared), by a new `setPendingState`
(replaced), or by `endSession` (cleared). -/
theorem pending_survives_reads (st : Store) (ops : List ReadOp)
    (id : String) :
    (((applyReads st ops).get? id).map pendingOf =
      (st.get? id).map pendingOf) ∧
    (∀ now toolName toolInput,
      ((updateActivity now id toolName toolInput st).store.get? id).map
          (fun s => s.pendingState) =
        (st.get? id).map (fun _ => (none : Option PendingState))) ∧
    (∀ now ps msg,
      ((setPendingState now id ps msg st).store.get? id).map
          (fun s => s.pendingState) =
        (st.get? id).map (fun _ => ps)) ∧
    (∀ now,
      ((endSession now id st).store.get? id).map
          (fun s => s.pendingState) =
        (st.get? id).map (fun _ => (none : Option PendingState))) := by
  refine ⟨applyReads_pending st ops id, ?_, ?_, ?_⟩
  · intro now toolName toolInput
    cases h : st.get? id with
    | none =>
        rw [updateActivity_store_of_none now toolName toolInput h, h]
        rfl
    | some s =>
        have hid : s.id = id := get?_eq_id h
        rw [updateActivity_store_of_some now toolName toolInput h]
        rw [show ∀ r : Session, (st.set r).get? id = (st.set r).get? id
          from fun _ => rfl]
        rw [← hid]
        rw [get?_set_self st _]
        rfl
  · intro now ps msg
    cases h : st.get? id with
    | none =>
        rw [setPendingState_store_of_none now ps msg h, h]
        rfl
    | some s =>
        have hid : s.id = id := get?_eq_id h
        rw [setPendingState_store_of_some now ps msg h]
        rw [← hid]
        rw [get?_set_self st _]
        rfl
  · intro now
    cases h : st.get? id with
    | none =>
        rw [endSession_store_of_none now h, h]
        rfl
    | some s =>
        rw [endSession_get?_self now h]
        rfl

-- ### C9

theorem countP_eq_zero_of_all {l : List Effect}
    (h : ∀ x ∈ l, x.isBroadcast = false) :
    l.countP Effect.isBroadcast = 0 := by
  induction l with
  | nil => rfl
  | cons a tl ih =>
      rw [List.countP_cons]
      rw [h a (List.mem_cons_self a tl)]
      rw [ih (fun x hx => h x (List.mem_cons_of_mem a hx))]
      rfl

theorem notifies_of_shape (id : String) (pre : List Effect) (d : Effect)
    (mid : List Effect) (e : Effect)
    (hpre : ∀ x ∈ pre, x.isBroadcast = false)
    (hd : d.isSessionPersist = true) (hdB : d.isBroadcast = false)
    (hmid : ∀ x ∈ mid, x.isBroadcast = false)
    (he : e.isBroadcast = true) :
    NotifiesOnceAfterPersist id
      (pre ++ Effect.registryWrite id :: d :: mid ++ [e]) := by
  constructor
  · have h1 : (Effect.registryWrite id).isBroadcast = false := rfl
    simp only [List.countP_append, List.countP_cons, List.countP_nil,
      countP_eq_zero_of_all hpre, countP_eq_zero_of_all hmid, hdB, he, h1]
    norm_num
  · exact ⟨pre, mid, d, e, rfl, hd, he⟩

theorem updateActivity_fx_of_some {st : Store} {id : String}
    {s : Session} (now : Nat) (toolName toolInput : String)
    (h : st.get? id = some s) :
    (updateActivity now id toolName toolInput st).fx =
      (if s.pendingState = some PendingState.permission_prompt then
        [Effect.dbResolvePermissionRequest id "approved"] else []) ++
      [Effect.registryWrite id, Effect.dbUpdateSessionActivity id,
       Effect.dbLogEvent id "tool-use",
       Effect.broadcastSessionUpdate (toResponse now
         { s with lastActivity := now, lastTool := toolName,
                  lastToolInput := toolInput,
                  status := calculateStatus now
                    { s with lastActivity := now, lastTool := toolName,
                             lastToolInput := toolInput },
                  pendingState := none, pendingMessage := "" })] := by
  unfold updateActivity
  rw [h]

theorem setPendingState_fx_of_some {st : Store} {id : String}
    {s : Session} (now : Nat) (ps : Option PendingState) (msg : String)
    (h : st.get? id = some s) :
    (setPendingState now id ps msg st).fx =
      [Effect.registryWrite id, Effect.dbUpdatePendingState id] ++
      (if ps = some PendingState.permission_prompt then
        [Effect.dbLogPermissionRequest id] else []) ++
      [Effect.broadcastSessionUpdate (toResponse now
        { s with pendingState := ps, pendingMessage := msg,
                 lastActivity := now })] := by
  unfold setPendingState
  rw [h]

theorem endSession_fx_of_some {st : Store} {id : String} {s : Session}
    (now : Nat) (h : st.get? id = some s) :
    (endSession now id st).fx =
      (if s.pendingState = some PendingState.permission_prompt then
        [Effect.dbResolvePermissionRequest id "timeout"] else []) ++
      [Effect.registryWrite id, Effect.dbEndSession id,
       Effect.dbLogEvent id "session-end",
       Effect.broadcastSessionEnded id] := by
  unfold endSession
  rw [h]

/-- C9 counterexample: `importSession` ("importIfAbsent") changes
observable state — it inserts the record into the registry and persists
it — but emits zero change notifications, contradicting "every
mutating call emits exactly one notification". -/
theorem importSession_no_broadcast_cex :
    ((importSession endedSessionEx []).inserted = true) ∧
    (((importSession endedSessionEx []).store.get? "a").isSome = true) ∧
    ((importSession endedSessionEx []).fx.countP Effect.isBroadcast
      = 0) := by
  refine ⟨rfl, rfl, rfl⟩

/-- C9 (amended): `createSession`, `updateActivity`, `setPendingState`
and `endSession` (on a known id) each perform, in order, the registry
mutation, the durable write of the session record, and then — as the
final effect — exactly one change notification (for `endSession` an
ended signal carrying only the id; for the others a session snapshot).
`importSession`, however, persists the imported record but emits no
notification at all. -/
theorem mutations_notify_once_after_persist (now : Nat)
    (id projectPath transcriptPath toolName toolInput msg : String)
    (ps : Option PendingState) {st : Store} {s : Session}
    (h : st.get? id = some s) :
    NotifiesOnceAfterPersist id
      (createSession now id projectPath transcriptPath st).fx ∧
    NotifiesOnceAfterPersist id
      (updateActivity now id toolName toolInput st).fx ∧
    NotifiesOnceAfterPersist id (setPendingState now id ps msg st).fx ∧
    NotifiesOnceAfterPersist id (endSession now id st).fx ∧
    ((endSession now id st).fx.getLast? =
      some (Effect.broadcastSessionEnded id)) ∧
    (∀ session : Session, ∀ st2 : Store,
      (importSession session st2).fx.countP Effect.isBroadcast = 0) := by
  refine ⟨?_, ?_, ?_, ?_, ?_, ?_⟩
  · exact notifies_of_shape id [] (Effect.dbUpsertSession id)
      [Effect.dbLogEvent id "session-start"] _
      (by intro x hx; cases hx) rfl rfl
      (by intro x hx; rw [List.mem_singleton] at hx; rw [hx]; rfl) rfl
  · rw [updateActivity_fx_of_some now toolName toolInput h]
    by_cases hp : s.pendingState = some PendingState.permission_prompt
    · rw [if_pos hp]
      exact notifies_of_shape id
        [Effect.dbResolvePermissionRequest id "approved"]
        (Effect.dbUpdateSessionActivity id)
        [Effect.dbLogEvent id "tool-use"] _
        (by intro x hx; rw [List.mem_singleton] at hx; rw [hx]; rfl) rfl rfl
        (by intro x hx; rw [List.mem_singleton] at hx; rw [hx]; rfl) rfl
    · rw [if_neg hp]
      exact notifies_of_shape id []
        (Effect.dbUpdateSessionActivity id)
        [Effect.dbLogEvent id "tool-use"] _
        (by intro x hx; cases hx) rfl rfl
        (by intro x hx; rw [List.mem_singleton] at hx; rw [hx]; rfl) rfl
  · rw [setPendingState_fx_of_some now ps msg h]
    by_cases hp : ps = some PendingState.permission_prompt
    · rw [if_pos hp]
      exact notifies_of_shape id []
        (Effect.dbUpdatePendingState id)
        [Effect.dbLogPermissionRequest id] _
        (by intro x hx; cases hx) rfl rfl
        (by intro x hx; rw [List.mem_singleton] at hx; rw [hx]; rfl) rfl
    · rw [if_neg hp]
      exact notifies_of_shape id []
        (Effect.dbUpdatePendingState id) [] _
        (by intro x hx; cases hx) rfl rfl
        (by intro x hx; cases hx) rfl
  · rw [endSession_fx_of_some now h]
    by_cases hp : s.pendingState = some PendingState.permission_prompt
    · rw [if_pos hp]
      exact notifies_of_shape id
        [Effect.dbResolvePermissionRequest id "timeout"]
        (Effect.dbEndSession id)
        [Effect.dbLogEvent id "session-end"] _
        (by intro x hx; rw [List.mem_singleton] at hx; rw [hx]; rfl) rfl rfl
        (by intro x hx; rw [List.mem_singleton] at hx; rw [hx]; rfl) rfl
    · rw [if_neg hp]
      exact notifies_of_shape id []
        (Effect.dbEndSession id)
        [Effect.dbLogEvent id "session-end"] _
        (by intro x hx; cases hx) rfl rfl
        (by intro x hx; rw [List.mem_singleton] at hx; rw [hx]; rfl) rfl
  · rw [endSession_fx_of_some now h]
    by_cases hp : s.pendingState = some PendingState.permission_prompt
    · rw [if_pos hp]
      rfl
    · rw [if_neg hp]
      rfl
  · intro session st2
    unfold importSession
    by_cases hh : st2.hasSession session.id
    · rw [if_pos hh]
      rfl
    · rw [if_neg hh]
      rfl

/-- Witness for the amended C9 theorem at a concrete store. -/
theorem mutations_notify_once_after_persist_witness :
    (endSession 5 "a" (createSession 0 "a" "/p" "t" []).store).fx.getLast?
      = some (Effect.broadcastSessionEnded "a") :=
  (mutations_notify_once_after_persist 5 "a" "/p" "t" "T" "I" "M" none
    (s := createdSessionEx) (by decide)).2.2.2.2.1

-- ### C10

/-- C10: the reconciler's per-path process count uses exact string
equality only: `getProcessCount` over a snapshot equals the number of
processes whose cwd is string-equal to the path, so a process whose cwd
is a strict parent or strict subdirectory of a session's projectPath
contributes zero; a path with no exactly-matching process has count 0
and every live session tracked for it is ended by the pruning pass
(zero-process rule). -/
theorem process_count_exact_match_only (ps : List RunningClaudeProcess)
    (path : String) :
    (getProcessCount (countProcessesPerCwd ps) path =
      (ps.filter (fun p => decide (p.cwd = path))).length) ∧
    ((∀ p ∈ ps, p.cwd ≠ path) →
      getProcessCount (countProcessesPerCwd ps) path = 0 ∧
      (∀ now : Nat, ∀ st : Store, StoreWF st →
        ∀ s ∈ liveSessionsAt now st path,
          ∃ r, (cleanupDeadSessions now
              (countProcessesPerCwd ps) st).2.get? s.id = some r ∧
            r.status = SessionStatus.ended)) := by
  refine ⟨getProcessCount_countProcessesPerCwd ps path, ?_⟩
  intro hne
  have h0 : getProcessCount (countProcessesPerCwd ps) path = 0 := by
    rw [getProcessCount_countProcessesPerCwd]
    rw [List.length_eq_zero]
    rw [List.filter_eq_nil_iff]
    intro p hp
    simpa using hne p hp
  refine ⟨h0, ?_⟩
  intro now st hWF s hs
  have hs' : s ∈ (liveSessionsAt now st path).drop
      (getProcessCount (countProcessesPerCwd ps) path) := by
    rw [h0, List.drop_zero]
    exact hs
  exact (cleanup_liveAt_spec now (countProcessesPerCwd ps) st path
    hWF).1 s hs'

/-- Witness for C10: processes at the strict parent `/a` and the strict
subdirectory `/a/b/c` leave the count for `/a/b` at 0, and its tracked
session is ended by the pass. -/
theorem process_count_exact_match_only_witness :
    getProcessCount (countProcessesPerCwd c10ProcessesEx) "/a/b" = 0 ∧
    (∃ r, (cleanupDeadSessions 100
        (countProcessesPerCwd c10ProcessesEx)
        (createSession 0 "s1" "/a/b" "t" []).store).2.get?
        c10SessionEx.id = some r ∧
      r.status = SessionStatus.ended) := by
  have hmain := (process_count_exact_match_only c10ProcessesEx
    "/a/b").2 (by decide)
  exact ⟨hmain.1, hmain.2 100 (createSession 0 "s1" "/a/b" "t" []).store
    (by decide) c10SessionEx (by decide)⟩

-- ### C6

/-- C6: after one pruning pass, for every project path with quota
N = processCount, every live session beyond the Nth most-recently-active
(in `liveSessionsAt` order) is ended — in particular with N = 0 all of
them are — while a session within the quota (when N > 0) is left exactly
as the pass read it, in particular not ended. -/
theorem cleanup_prunes_beyond_quota (now : Nat)
    (counts : List (String × Nat)) (st : Store) (path : String)
    (hWF : StoreWF st) :
    (∀ s ∈ (liveSessionsAt now st path).drop
        (getProcessCount counts path),
      ∃ r, (cleanupDeadSessions now counts st).2.get? s.id = some r ∧
        r.status = SessionStatus.ended) ∧
    (getProcessCount counts path ≠ 0 →
      ∀ s ∈ (liveSessionsAt now st path).take
          (getProcessCount counts path),
        (cleanupDeadSessions now counts st).2.get? s.id = some s ∧
          ¬ s.status = SessionStatus.ended) :=
  cleanup_liveAt_spec now counts st path hWF

/-- Witness for C6: two live sessions at `/p`, quota 1: the older "a"
is ended, the most recent "b" survives untouched. -/
theorem cleanup_prunes_beyond_quota_witness :
    (∃ r, (cleanupDeadSessions 100 [("/p", 1)] c6StoreEx).2.get?
        c6aEx.id = some r ∧ r.status = SessionStatus.ended) ∧
    ((cleanupDeadSessions 100 [("/p", 1)] c6StoreEx).2.get? c6bEx.id =
        some c6bEx ∧ ¬ c6bEx.status = SessionStatus.ended) := by
  have hmain := cleanup_prunes_beyond_quota 100 [("/p", 1)] c6StoreEx
    "/p" (by decide)
  exact ⟨hmain.1 c6aEx (by decide),
    hmain.2 (by decide) c6bEx (by decide)⟩

-- ### C2

/-- C2 counterexample: a reconciliation pass whose process snapshot is
empty (as after an inspection failure) and whose transcript index is
empty — so the path `/p` is touched by neither — still ends the tracked
session at `/p`: untouched paths are not left alone. -/
theorem scan_empty_snapshot_ends_untouched_cex :
    (((createSession 10 "a" "/p" "t" []).store.get? "a").map
        (fun s => s.status) = some SessionStatus.active) ∧
    (((scan c2EnvEx (createSession 10 "a" "/p" "t" []).store).2.get?
        "a").map (fun s => s.status) = some SessionStatus.ended) := by
  refine ⟨rfl, rfl⟩

/-- C2 (amended): the pruning pass consults only the per-path process
count, so a pass whose process snapshot is empty (e.g. because process
inspection failed and returned `[]`) ends every tracked session — the
registry is mass-ended rather than untouched paths being left alone. -/
theorem scan_empty_snapshot_mass_ends (env : ScanEnv) (st : Store)
    (hP : env.processes = []) (hWF : StoreWF st) :
    ∀ id : String, ∀ r : Session,
      (scan env st).2.get? id = some r →
        r.status = SessionStatus.ended := by
  intro id r h
  rw [scan_store_of_processes_nil env st hP] at h
  exact cleanup_nil_counts_all_ended env.now st hWF h

/-- Witness for the amended C2 theorem at a concrete one-session store. -/
theorem scan_empty_snapshot_mass_ends_witness :
    ((scan c2EnvEx (createSession 10 "a" "/p" "t" []).store).2.get? "a" =
      some c2EndedEx) ∧
    c2EndedEx.status = SessionStatus.ended :=
  ⟨by decide,
   scan_empty_snapshot_mass_ends c2EnvEx
     (createSession 10 "a" "/p" "t" []).store rfl (by decide) "a"
     c2EndedEx (by decide)⟩

-- ### C7

/-- C7: during an import pass, a record discovered for a project path
comes exactly from the top-`processCount` candidates of that path by
modification time descending: (a) every imported record's id is among
the ids of the top-N candidates of its path and the path's process
count is positive — so a candidate outside the top N, or any candidate
of a path with count 0, is never imported; (b) conversely every top-N
candidate not already tracked is imported. -/
theorem scan_imports_topN_only (env : ScanEnv)
    (counts : List (String × Nat)) (st : Store) (idx : SessionIndex) :
    (∀ s ∈ scanProjectDir env counts st (some idx),
      0 < getProcessCount counts s.projectPath ∧
      s.id ∈ ((sortByKeyDesc (fun e => e.modified)
          (idx.entries.filter
            (fun e => decide (e.projectPath = s.projectPath)))).take
          (getProcessCount counts s.projectPath)).map
        (fun e => e.sessionId)) ∧
    (∀ entry ∈ idx.entries,
      entry ∈ (sortByKeyDesc (fun e => e.modified)
          (idx.entries.filter
            (fun e => decide (e.projectPath = entry.projectPath)))).take
          (getProcessCount counts entry.projectPath) →
      st.hasSession entry.sessionId = false →
      buildImportedSession env entry ∈
        scanProjectDir env counts st (some idx)) := by
  constructor
  · intro s hs
    rcases mem_scanProjectDir.mp hs with ⟨g, hg, hc⟩
    obtain ⟨k, l⟩ := g
    rcases mem_scanContrib.mp hc with ⟨hpc, entry, hentry, hhas, rfl⟩
    have hgval := (mem_groupByKey hg).1
    have hentry_l : entry ∈ l := by
      have h1 : entry ∈ sortByKeyDesc (fun e => e.modified) l :=
        List.take_subset _ _ hentry
      exact mem_sortByKeyDesc.mp h1
    have hk : entry.projectPath = k := by
      rw [hgval] at hentry_l
      exact of_decide_eq_true (List.mem_filter.mp hentry_l).2
    rw [buildImportedSession_projectPath, hk]
    constructor
    · exact Nat.pos_of_ne_zero hpc
    · rw [← hgval]
      rw [buildImportedSession_id]
      exact List.mem_map.mpr ⟨entry, hentry, rfl⟩
  · intro entry hmem htop hhas
    have hpcne : getProcessCount counts entry.projectPath ≠ 0 := by
      intro h0
      rw [h0] at htop
      rw [List.take_zero] at htop
      cases htop
    exact mem_scanProjectDir.mpr ⟨_, groupByKey_coverage hmem,
      mem_scanContrib.mpr ⟨hpcne, entry, htop, hhas, rfl⟩⟩

/-- Witness for C7 in the spec's scenario: 2 processes at `/p` and
three candidates T1 < T2 < T3: the import of T3 is within the top-2
selection, the pass imports T3 and T2 and nothing else, and with no
processes nothing is imported. -/
theorem scan_imports_topN_only_witness :
    (0 < getProcessCount [("/p", 2)]
        (buildImportedSession c7EnvEx c7Entry3Ex).projectPath ∧
      (buildImportedSession c7EnvEx c7Entry3Ex).id ∈
        ((sortByKeyDesc (fun e => e.modified)
            (c7IdxEx.entries.filter (fun e => decide (e.projectPath =
              (buildImportedSession c7EnvEx c7Entry3Ex).projectPath)))).take
            (getProcessCount [("/p", 2)]
              (buildImportedSession c7EnvEx c7Entry3Ex).projectPath)).map
          (fun e => e.sessionId)) ∧
    ((scanProjectDir c7EnvEx [("/p", 2)] [] (some c7IdxEx)).map
        (fun s => s.id) = ["t3", "t2"]) ∧
    (scanProjectDir c7EnvEx [] [] (some c7IdxEx) = []) := by
  refine ⟨?_, by decide, by decide⟩
  exact (scan_imports_topN_only c7EnvEx [("/p", 2)] [] c7IdxEx).1
    (buildImportedSession c7EnvEx c7Entry3Ex) (by decide)

-- ### C8

/-- C8: every session record the scanner rebuilds for import is for an
id not already in the registry, and its pending state is exactly what
`getLastPendingStateForSession` recovers from the raw event log: if the
last raw event logged for that id is a notification whose parsed
payload names one of the three recognized pending kinds, the imported
record carries that kind and the logged message; otherwise (other event
type, unparseable payload, unrecognized kind, or no events) it carries
no pending state and an empty message. -/
theorem import_restores_last_pending (env : ScanEnv)
    (counts : List (String × Nat)) (st : Store)
    (index : Option SessionIndex) :
    ∀ s ∈ scanProjectDir env counts st index,
      st.hasSession s.id = false ∧
      s.pendingState =
        (getLastPendingStateForSession env.rawEvents s.id).map
          Prod.fst ∧
      s.pendingMessage =
        ((getLastPendingStateForSession env.rawEvents s.id).map
          Prod.snd).getD "" := by
  cases index with
  | none => intro s hs; cases hs
  | some idx =>
      intro s hs
      rcases mem_scanProjectDir.mp hs with ⟨g, hg, hc⟩
      rcases mem_scanContrib.mp hc with ⟨-, entry, -, hhas, rfl⟩
      exact ⟨hhas, (buildImportedSession_pending env entry).1,
        (buildImportedSession_pending env entry).2⟩

/-- Witness for C8: the last raw event for "x" is an unresolved
`permission_prompt` notification; the record rebuilt by the scan pass
restores that pending state and message verbatim. -/
theorem import_restores_last_pending_witness :
    (Store.hasSession []
        (buildImportedSession c8EnvEx c8EntryEx).id = false ∧
      (buildImportedSession c8EnvEx c8EntryEx).pendingState =
        (getLastPendingStateForSession c8EnvEx.rawEvents
          (buildImportedSession c8EnvEx c8EntryEx).id).map Prod.fst ∧
      (buildImportedSession c8EnvEx c8EntryEx).pendingMessage =
        ((getLastPendingStateForSession c8EnvEx.rawEvents
          (buildImportedSession c8EnvEx c8EntryEx).id).map
          Prod.snd).getD "") ∧
    ((buildImportedSession c8EnvEx c8EntryEx).pendingState =
        some PendingState.permission_prompt ∧
      (buildImportedSession c8EnvEx c8EntryEx).pendingMessage =
        "may I run Bash?") :=
  ⟨import_restores_last_pending c8EnvEx [("/p", 1)] [] (some c8IdxEx)
      (buildImportedSession c8EnvEx c8EntryEx) (by decide),
   by decide⟩
